import Mathlib

/-!
# Verification of the jsrepo registry core: rule engine and update pipeline

A shallow embedding of the manifest data model, the structural rule engine
(`build/check.ts`), and the interactive update pipeline (`commands/update.ts`)
of the block-registry CLI, together with proofs about the embedded
definitions.

Conventions used throughout:

* JavaScript strings are Lean `String`s; the handful of string primitives the
  source uses (`split`, `includes`, template interpolation) are re-implemented
  by structural recursion over the character list so that every definition is
  kernel-computable on concrete inputs.
* `chalk` color/bold wrappers only add ANSI escapes on a TTY; on a plain
  stream they are the identity, which is how they are modelled here.
* The unbounded recursion of `searchForDep` (plain JS recursion, bounded only
  by the call stack) is modelled with an explicit `fuel` parameter;
  `SearchResult.outOfFuel` marks the computations on which the JS original
  would recurse without bound (stack overflow).
-/

/-! ## JavaScript string primitives, character-level -/

/-- `String.split(sep)` for a one-character separator, on the character list:
`chSplit '/' "a/b".data = [['a'],['b']]`.  Splitting the empty list yields
`[[]]`, matching JavaScript's `"".split('/') = [""]`. -/
def chSplit (sep : Char) : List Char → List (List Char)
  | [] => [[]]
  | c :: cs =>
    match chSplit sep cs with
    | [] => [[]]
    | g :: gs => if c = sep then [] :: g :: gs else (c :: g) :: gs

/-- JavaScript `s.split(sep)` for a one-character separator. -/
def jsSplit (s : String) (sep : Char) : List String :=
  (chSplit sep s.data).map (fun cs => String.mk cs)

/-- JavaScript `s.includes(c)` for a one-character needle. -/
def jsIncludesChar (s : String) (c : Char) : Bool :=
  s.data.contains c

/-! ## The manifest data model (`types.ts`, manifest JSON schema) -/

/-- One reusable unit of source files, as it appears in a registry manifest. -/
structure Block where
  name : String
  category : String
  localDependencies : List String
  dependencies : List String
  devDependencies : List String
  files : List String
  list : Bool
  tests : Bool
  subdirectory : Bool
deriving Repr, DecidableEq

/-- A named grouping of blocks within one manifest. -/
structure Category where
  name : String
  blocks : List Block
deriving Repr, DecidableEq

/-- The full category/block listing for one registry. -/
structure Manifest where
  categories : List Category
deriving Repr, DecidableEq

/-- The block specifier `` `${block.category}/${block.name}` `` used
throughout the rule engine. -/
def specOf (b : Block) : String :=
  b.category ++ "/" ++ b.name

/-- All blocks of a manifest in manifest order
(`manifest.categories.flatMap((cat) => cat.blocks)`). -/
def allBlocks (m : Manifest) : List Block :=
  (m.categories.map Category.blocks).flatten

/-! ## The shared depth-first search (`searchForDep`) -/

/-- Outcome of one `searchForDep` call.  `outOfFuel` marks computations on
which the JS original (whose recursion is limited only by the call stack)
would not return. -/
inductive SearchResult where
  | found (path : List String)
  | notFound
  | outOfFuel
deriving Repr, DecidableEq

/-- The lookup
`categories.find((cat) => cat.name === categoryName)?.blocks.find((b) => b.name === blockName)`
performed on a raw dependency string `dep`, including the JS destructuring
`const [categoryName, blockName] = dep.split('/')` (where `blockName` may be
`undefined`, in which case no block ever matches). -/
def lookupBlock (categories : List Category) (dep : String) : Option Block :=
  let parts := jsSplit dep '/'
  match categories.find? (fun cat => cat.name = parts.headD "") with
  | none => none
  | some cat =>
    match parts.get? 1 with
    | none => none
    | some blockName => cat.blocks.find? (fun b => b.name = blockName)

/-- The `for (const dep of block.localDependencies)` loop body of
`searchForDep`; `recur` is the recursive call at one less stack depth,
`newChain` is `[...chain, specifier-of-current-block]` and `chain` the
chain the current call received. -/
def searchLoop (recur : Block → List String → SearchResult) (search : String)
    (newChain chain : List String) (categories : List Category) :
    List String → SearchResult
  | [] => .notFound
  | dep :: rest =>
    if dep = search then .found newChain
    else if chain.contains dep then .notFound
    else
      match lookupBlock categories dep with
      | none => searchLoop recur search newChain chain categories rest
      | some depBlock =>
        match recur depBlock newChain with
        | .found p => .found (p ++ [search])
        | .notFound => searchLoop recur search newChain chain categories rest
        | .outOfFuel => .outOfFuel

/-- `searchForDep(search, block, categories, chain)`: depth-first search over
local dependencies returning the chain of block specifiers walked to reach
`search`, or `notFound` (JS `undefined`).  `fuel` bounds the recursion
depth; the JS source has no such bound. -/
def searchForDep (fuel : Nat) (search : String) (block : Block)
    (categories : List Category) (chain : List String) : SearchResult :=
  match fuel with
  | 0 => .outOfFuel
  | f + 1 =>
    searchLoop (fun b ch => searchForDep f search b categories ch) search
      (chain ++ [specOf block]) chain categories block.localDependencies

/-! ## The built-in rules (`build/check.ts`)

`chalk` wrappers (`color.bold`, `color.red`, ...) are modelled as the
identity: on a non-TTY stream chalk adds no escape codes. -/

/-- `no-unpinned-dependency`: flags every dependency/devDependency string not
containing an `@` character. -/
def checkNoUnpinnedDependency (block : Block) : Option (List String) :=
  let errors :=
    (block.dependencies ++ block.devDependencies).filterMap fun dep =>
      if jsIncludesChar dep '@' then none
      else some ("Couldn\x27t find a version to use for " ++ dep)
  if errors.length > 0 then some errors else none

/-- JavaScript `String.prototype.trim` (used by
`require-local-dependency-exists`), modelled with Lean's whitespace
predicate. -/
def jsTrim (s : String) : String :=
  String.mk (((s.data.dropWhile Char.isWhitespace).reverse.dropWhile
    Char.isWhitespace).reverse)

/-- `require-local-dependency-exists`: flags local dependencies whose
category/name pair does not resolve in the manifest (with trimmed category
comparison, as in the source). -/
def checkRequireLocalDependencyExists (block : Block) (manifest : Manifest) :
    Option (List String) :=
  let errors :=
    block.localDependencies.filterMap fun dep =>
      let parts := jsSplit dep '/'
      let error := specOf block ++ " depends on local dependency " ++ dep ++
        " which doesn\x27t exist"
      match manifest.categories.find?
          (fun cat => jsTrim cat.name = jsTrim (parts.headD "")) with
      | none => some error
      | some depCategory =>
        match depCategory.blocks.find? (fun b => some b.name = parts.get? 1) with
        | none => some error
        | some _ => none
  if errors.length > 0 then some errors else none

/-- One iteration of the `no-category-index-file-dependency` loop: the
violation produced for one local dependency string, if any.  The dependency's
own `categoryName` segment — not the block's own category — selects the
category searched for a block named `index`. -/
def indexDepViolation (block : Block) (manifest : Manifest) (dep : String) :
    Option String :=
  let parts := jsSplit dep '/'
  if parts.get? 1 ≠ some "index" then none
  else
    match manifest.categories.find? (fun cat => cat.name = parts.headD "") with
    | none => none
    | some category =>
      match category.blocks.find? (fun b => b.name = "index") with
      | none => none
      | some _ =>
        some (specOf block ++ " depends on " ++ parts.headD "" ++ "/index")

/-- `no-category-index-file-dependency`: flags a local dependency whose second
path segment is literally `index`, whenever the first segment names a
category of the manifest whose block list contains a block named `index`.
The block's own category is not consulted. -/
def checkNoCategoryIndexFileDependency (block : Block) (manifest : Manifest) :
    Option (List String) :=
  let errors := block.localDependencies.filterMap (indexDepViolation block manifest)
  if errors.length > 0 then some errors else none

/-- A positional rule option: JS `string | number` (numbers modelled as
integers; all numeric options in the source are integer literals). -/
inductive OptVal where
  | str (s : String)
  | num (n : Int)
deriving Repr, DecidableEq

/-- `max-local-dependencies`: flags a block whose `localDependencies.length`
exceeds the configured limit (first numeric option, default `5`). -/
def checkMaxLocalDependencies (block : Block) (options : List OptVal) :
    Option (List String) :=
  let limit : Int :=
    match options.head? with
    | some (.num n) => n
    | _ => 5
  if (block.localDependencies.length : Int) > limit then
    some [specOf block ++ " has too many local dependencies (" ++
      toString block.localDependencies.length ++ ") limit (" ++
      toString limit ++ ")"]
  else none

/-- `no-circular-dependency` (fuel-bounded; `Except.error` marks the
computations on which the JS original overflows the stack). -/
def checkNoCircularDependency (fuel : Nat) (block : Block) (manifest : Manifest) :
    Except Unit (Option (List String)) :=
  let specifier := specOf block
  match searchForDep fuel specifier block manifest.categories [] with
  | .outOfFuel => .error ()
  | .found chain =>
    .ok (some ["There is a circular dependency in " ++ specifier ++ ": " ++
      String.intercalate " -> " chain])
  | .notFound => .ok none

/-- The `for (const block of listedBlocks)` loop of `no-unused-block`:
`true` as soon as some listed block's search reaches the specifier. -/
def unusedLoop (fuel : Nat) (specifier : String) (categories : List Category) :
    List Block → Except Unit Bool
  | [] => .ok false
  | b :: rest =>
    match searchForDep fuel specifier b categories [] with
    | .outOfFuel => .error ()
    | .found _ => .ok true
    | .notFound => unusedLoop fuel specifier categories rest

/-- `no-unused-block`: a listed block is never flagged; a non-listed block is
flagged unless the search seeded from some `list`-marked block finds it. -/
def checkNoUnusedBlock (fuel : Nat) (block : Block) (manifest : Manifest) :
    Except Unit (Option (List String)) :=
  if block.list then .ok none
  else
    let specifier := specOf block
    let listedBlocks := (allBlocks manifest).filter Block.list
    match unusedLoop fuel specifier manifest.categories listedBlocks with
    | .error e => .error e
    | .ok true => .ok none
    | .ok false => .ok (some [specifier ++ " is unused and will be removed"])

/-- Modelled from the spec: the `parsePackageName(...).unwrap().name` base-name
extraction of the `parse-package-name` utility (not under `src/`): the
scoped-package-aware package name before the version qualifier. -/
def packageBaseName (d : String) : String :=
  match d.data with
  | '@' :: rest => String.mk ('@' :: (chSplit '@' rest).headD [])
  | _ => String.mk ((chSplit '@' d.data).headD [])

/-- The denylist of front-end framework packages of `no-framework-dependency`. -/
def FRAMEWORKS : List String :=
  ["svelte", "@sveltejs/kit", "vue", "nuxt", "react", "react-dom", "next",
   "@remix-run/react", "@angular/core", "@angular/common", "@angular/forms",
   "@angular/platform-browser", "@angular/platform-browser-dynamic",
   "@angular/router", "@builder.io/qwik", "astro", "solid-js"]

/-- `no-framework-dependency`: one violation per dependency/devDependency
whose base package name is on the framework denylist. -/
def checkNoFrameworkDependency (block : Block) : Option (List String) :=
  let frameworkDeps :=
    ((block.devDependencies ++ block.dependencies).map packageBaseName).filter
      (fun d => FRAMEWORKS.contains d)
  let errors := frameworkDeps.map fun frameworkDep =>
    specOf block ++ " depends on " ++ frameworkDep ++
      " causing it to be installed when added"
  if errors.length > 0 then some errors else none

/-! ## The rule engine (`runRules`) -/

/-- Registry configuration (`RegistryConfig` from `config.ts`, not under
`src/`).  Modelled from the spec: it is passed through to every rule check,
and no built-in rule reads it, so it carries no observable fields here. -/
structure RegistryConfig where
  mkConfig ::
deriving Repr, DecidableEq

/-- A rule severity (`ruleLevelSchema`): `off`, `warn` or `error`. -/
inductive RuleLevel where
  | off
  | warn
  | error
deriving Repr, DecidableEq

/-- One entry of the rule configuration: either a bare severity or a tuple
`[severity, ...options]`. -/
inductive RuleConf where
  | lvl (l : RuleLevel)
  | tup (l : RuleLevel) (options : List OptVal)
deriving Repr, DecidableEq

/-- A rule configuration maps rule names to entries; `none` models a missing
key (the source reads `ruleConfig[name]!`, which yields `undefined` for a
missing key). -/
def RuleConfig : Type := String → Option RuleConf

/-- The context handed to every rule check. -/
structure CheckOptions where
  manifest : Manifest
  options : List OptVal
  config : RegistryConfig

/-- A rule: description plus check function.  The `Except Unit` layer marks
the checks on which the JS original does not return (stack overflow inside
`searchForDep`); every other check is total. -/
structure Rule where
  description : String
  check : Block → CheckOptions → Except Unit (Option (List String))

/-- The severity/options destructuring at the head of the rule loop:
`Array.isArray(conf)` picks the tuple apart, a bare severity has no options,
and a missing entry leaves the severity `undefined` (`none`). -/
def confDestructure (conf : Option RuleConf) : Option RuleLevel × List OptVal :=
  match conf with
  | some (.tup l os) => (some l, os)
  | some (.lvl l) => (some l, [])
  | none => (none, [])

/-- The `ascii.VERTICAL_LINE` / `ascii.ERROR` / `ascii.WARN` prefixes
(from `utils/ascii.ts`, not under `src/`; the exact glyphs are display-only
and irrelevant to every claim). -/
def VERTICAL_LINE : String := "|"

/-- Error marker glyph. -/
def ERROR_MARK : String := "x"

/-- Warning marker glyph. -/
def WARN_MARK : String := "▲"

/-- Decoration of one violation pushed onto the `errors` list. -/
def fmtError (name err : String) : String :=
  VERTICAL_LINE ++ "  " ++ ERROR_MARK ++ " " ++ err ++ " " ++ name

/-- Decoration of one violation pushed onto the `warnings` list. -/
def fmtWarn (name err : String) : String :=
  VERTICAL_LINE ++ "  " ++ WARN_MARK ++ " " ++ err ++ " " ++ name

/-- The body of the innermost `runRules` loop for one `(name, rule)` pair and
one block: destructure the configured severity, skip when `off` (before the
check runs), run the check, and route its violations to the warnings or the
errors component. -/
def applyRule (name : String) (rule : Rule) (block : Block) (manifest : Manifest)
    (config : RegistryConfig) (ruleConfig : RuleConfig) :
    Except Unit (List String × List String) :=
  let level := (confDestructure (ruleConfig name)).1
  let options := (confDestructure (ruleConfig name)).2
  if level = some .off then .ok ([], [])
  else
    match rule.check block ⟨manifest, options, config⟩ with
    | .error e => .error e
    | .ok none => .ok ([], [])
    | .ok (some ruleErrors) =>
      if level = some .error then .ok ([], ruleErrors.map (fmtError name))
      else .ok (ruleErrors.map (fmtWarn name), [])

/-- The rule loop of `runRules` for one block. -/
def runRulesBlock (rulesL : List (String × Rule)) (block : Block)
    (manifest : Manifest) (config : RegistryConfig) (ruleConfig : RuleConfig) :
    Except Unit (List String × List String) :=
  match rulesL with
  | [] => .ok ([], [])
  | (name, rule) :: rest => do
    let (w, e) ← applyRule name rule block manifest config ruleConfig
    let (w2, e2) ← runRulesBlock rest block manifest config ruleConfig
    return (w ++ w2, e ++ e2)

/-- The block loop of `runRules` for one category. -/
def runRulesBlocks (rulesL : List (String × Rule)) (blocks : List Block)
    (manifest : Manifest) (config : RegistryConfig) (ruleConfig : RuleConfig) :
    Except Unit (List String × List String) :=
  match blocks with
  | [] => .ok ([], [])
  | block :: rest => do
    let (w, e) ← runRulesBlock rulesL block manifest config ruleConfig
    let (w2, e2) ← runRulesBlocks rulesL rest manifest config ruleConfig
    return (w ++ w2, e ++ e2)

/-- The category loop of `runRules` (the manifest argument is the full
manifest handed to every check, the list argument the remaining categories). -/
def runRulesCats (rulesL : List (String × Rule)) (cats : List Category)
    (manifest : Manifest) (config : RegistryConfig) (ruleConfig : RuleConfig) :
    Except Unit (List String × List String) :=
  match cats with
  | [] => .ok ([], [])
  | cat :: rest => do
    let (w, e) ← runRulesBlocks rulesL cat.blocks manifest config ruleConfig
    let (w2, e2) ← runRulesCats rulesL rest manifest config ruleConfig
    return (w ++ w2, e ++ e2)

/-- `runRules` generalized over the rule table it iterates: categories in
manifest order, blocks in category order, rules in table order, accumulating
warnings and errors in that stable order. -/
def runRulesOn (rulesL : List (String × Rule)) (manifest : Manifest)
    (config : RegistryConfig) (ruleConfig : RuleConfig) :
    Except Unit (List String × List String) :=
  runRulesCats rulesL manifest.categories manifest config ruleConfig

/-- The built-in rule table, in the registration (object-literal insertion)
order over which `Object.entries(rules)` iterates.  `fuel` bounds the
recursion of the two rules built on `searchForDep`. -/
def rulesList (fuel : Nat) : List (String × Rule) :=
  [("no-unpinned-dependency",
    ⟨"Require all dependencies to have a pinned version.",
     fun block _ => .ok (checkNoUnpinnedDependency block)⟩),
   ("require-local-dependency-exists",
    ⟨"Require all local dependencies to exist.",
     fun block opts => .ok (checkRequireLocalDependencyExists block opts.manifest)⟩),
   ("no-category-index-file-dependency",
    ⟨"Disallow depending on the index file of a category.",
     fun block opts =>
       .ok (checkNoCategoryIndexFileDependency block opts.manifest)⟩),
   ("max-local-dependencies",
    ⟨"Enforces a limit on the amount of local dependencies a block can have.",
     fun block opts => .ok (checkMaxLocalDependencies block opts.options)⟩),
   ("no-circular-dependency",
    ⟨"Disallow circular dependencies.",
     fun block opts => checkNoCircularDependency fuel block opts.manifest⟩),
   ("no-unused-block",
    ⟨"Disallow unused blocks. (Not listed and not a dependency of another block)",
     fun block opts => checkNoUnusedBlock fuel block opts.manifest⟩),
   ("no-framework-dependency",
    ⟨"Disallow frameworks (Svelte, Vue, React) as dependencies.",
     fun block _ => .ok (checkNoFrameworkDependency block)⟩)]

/-- The `DEFAULT_CONFIG` rule configuration. -/
def DEFAULT_CONFIG : RuleConfig := fun name =>
  if name = "no-category-index-file-dependency" then some (.lvl .warn)
  else if name = "no-unpinned-dependency" then some (.lvl .warn)
  else if name = "require-local-dependency-exists" then some (.lvl .error)
  else if name = "max-local-dependencies" then some (.tup .warn [.num 10])
  else if name = "no-circular-dependency" then some (.lvl .error)
  else if name = "no-unused-block" then some (.lvl .warn)
  else if name = "no-framework-dependency" then some (.lvl .warn)
  else none

/-- `runRules(manifest, config, ruleConfig)`: runs every built-in rule over
every block and returns the accumulated `(warnings, errors)` (or the
divergence marker when a `searchForDep`-based check overflows). -/
def runRules (fuel : Nat) (manifest : Manifest) (config : RegistryConfig)
    (ruleConfig : RuleConfig) : Except Unit (List String × List String) :=
  runRulesOn (rulesList fuel) manifest config ruleConfig

/-! ## The diff model and the interactive update pipeline (`commands/update.ts`) -/

/-- One chunk of a line diff, as produced by the `diff` package's
`diffLines`: a run of lines that are unchanged, added, or removed. -/
structure Change where
  added : Bool
  removed : Bool
  value : List (List Char)
deriving Repr, DecidableEq

/-- Split a string into lines, each retaining its trailing newline
(the line tokenization of `diffLines`): `"a\nb" ↦ ["a\n", "b"]`, `"" ↦ []`. -/
def chLinesGo (cur : List Char) : List Char → List (List Char)
  | [] => if cur = [] then [] else [cur.reverse]
  | c :: cs =>
    if c = '\n' then (cur.reverse ++ ['\n']) :: chLinesGo [] cs
    else chLinesGo (c :: cur) cs

/-- Line tokenization of a string (see `chLinesGo`). -/
def splitLines (s : String) : List (List Char) :=
  chLinesGo [] s.data

/-- Longest common prefix of two lists of lines. -/
def commonPre : List (List Char) → List (List Char) → List (List Char)
  | a :: as2, b :: bs => if a = b then a :: commonPre as2 bs else []
  | _, _ => []

/-- Longest common suffix of two lists of lines. -/
def commonSuf (o n : List (List Char)) : List (List Char) :=
  (commonPre o.reverse n.reverse).reverse

/-- Assembly of the (at most four) chunks of a prefix/suffix-trimmed diff:
unchanged prefix, removed middle, added middle, unchanged suffix; empty
pieces produce no chunk. -/
def chunkList (p midO midN s : List (List Char)) : List Change :=
  (if p.isEmpty then [] else [⟨false, false, p⟩]) ++
  (if midO.isEmpty then [] else [⟨false, true, midO⟩]) ++
  (if midN.isEmpty then [] else [⟨true, false, midN⟩]) ++
  (if s.isEmpty then [] else [⟨false, false, s⟩])

/-- The line diff at the level of tokenized lines: trim the common prefix and
the common suffix of the rest, and emit the chunks. -/
def diffChunks (o n : List (List Char)) : List Change :=
  let p := commonPre o n
  let o2 := o.drop p.length
  let n2 := n.drop p.length
  let s := commonSuf o2 n2
  chunkList p (o2.take (o2.length - s.length)) (n2.take (n2.length - s.length)) s

/-- Modelled from the spec: the external `diffLines` collaborator (the npm
`diff` package; not part of this repository).  It returns the line diff as a
sequence of coalesced chunks: a maximal unchanged run is one chunk, a maximal
removed run one chunk (removed before added), a maximal added run one chunk;
equal inputs give a single unchanged chunk (none when both are empty), and
an empty side gives a single removed (resp. added) chunk.  Modelled by
common-prefix/suffix trimming, which produces exactly those chunks on every
input this development evaluates or quantifies over. -/
def diffLines (oldStr newStr : String) : List Change :=
  diffChunks (splitLines oldStr) (splitLines newStr)

/-- The count of real (added or removed) chunks of a diff — the
`changes.filter((a) => a.added || a.removed).length` computed by the
rendered diff header. -/
def realChanges (changes : List Change) : Nat :=
  (changes.filter (fun c => c.added || c.removed)).length

/-- One user decision at the `Accept changes?` prompt.  `aiUpdate c` is the
`Update with AI` choice, carrying the (externally produced and formatted)
content that replaces the candidate before the loop re-enters. -/
inductive Decision where
  | accept
  | reject
  | aiUpdate (newContent : String)
deriving Repr, DecidableEq

/-- The `while (true)` review loop of `_update` for one file, driven by a
script of decisions: recompute the diff, skip when it has at most one chunk
and the local content is non-empty, otherwise consult the next decision
(`none` when a prompt would be shown but the script is exhausted — i.e. the
user is prompted).  Returns `(acceptedChanges, remoteContent)` as left by the
loop. -/
def updateLoop (yes no : Bool) (localContent : String) :
    String → List Decision → Option (Bool × String)
  | remoteContent, ds =>
    let changes := diffLines localContent remoteContent
    if changes.length > 1 ∨ localContent = "" then
      if yes = false ∧ no = false then
        match ds with
        | [] => none
        | .accept :: _ => some (true, remoteContent)
        | .reject :: _ => some (false, remoteContent)
        | .aiUpdate c :: rest => updateLoop yes no localContent c rest
      else some (yes, remoteContent)
    else some (yes, remoteContent)

/-- Per-file decision pipeline of `_update`: with `--yes` the candidate is
written unconditionally; otherwise the review loop runs on the current disk
content (empty string when the file does not exist) and the file is written
exactly when the loop accepts.  `some (some c)` means `c` is written,
`some none` means the file is left untouched, `none` means the command was
cancelled at a prompt (no write for this file). -/
def processFile (yes no : Bool) (localFile : Option String) (remote : String)
    (ds : List Decision) : Option (Option String) :=
  if yes then some (some remote)
  else
    let localContent := localFile.getD ""
    match updateLoop yes no localContent remote ds with
    | none => none
    | some (accepted, finalRemote) =>
      if accepted then some (some finalRemote) else some none

/-- The on-disk content of the file after `processFile`: a scheduled write
replaces it, everything else leaves it untouched. -/
def diskAfter (localFile : Option String) (result : Option (Option String)) :
    Option String :=
  match result with
  | some (some c) => some c
  | _ => localFile

/-- The pin notion stated by the specification (not by the code): the
dependency string contains a separator `@` with a non-empty version after
it. -/
def hasExplicitPin (dep : String) : Bool :=
  match chSplit '@' dep.data with
  | [] => false
  | [_] => false
  | parts => !(parts.getLastD []).isEmpty

/-- The reachability notion stated by the claim for `no-unused-block` (not
the one the code computes): membership of a specifier in a block's
*transitive local-dependency closure*, every declared dependency being
followed — `closureReaches fuel m b s` holds when some dependency string of
`b` equals `s`, or resolves (via the same `lookupBlock`) to a block whose
closure reaches `s`.  `fuel` bounds the unfolding depth; on the finite
manifests it is evaluated on here, a fuel exceeding the block count decides
true closure membership. -/
def closureReaches (fuel : Nat) (m : Manifest) (b : Block) (s : String) :
    Bool :=
  match fuel with
  | 0 => false
  | f + 1 =>
    b.localDependencies.any fun dep =>
      dep == s ||
        (match lookupBlock m.categories dep with
         | some db => closureReaches f m db s
         | none => false)

/-- Specifier-consistency of a manifest: every local-dependency string that
resolves through `lookupBlock` resolves to a block whose own
`category/name` specifier is that very string.  (This holds whenever every
block's `category` field matches its containing category's name and every
dependency string is exactly `category/name`.) -/
def wfManifest (m : Manifest) : Bool :=
  (allBlocks m).all fun b =>
    b.localDependencies.all fun dep =>
      match lookupBlock m.categories dep with
      | some db => specOf db == dep
      | none => true

/-- The set of block specifiers of a manifest. -/
def specsFinset (m : Manifest) : Finset String :=
  ((allBlocks m).map specOf).toFinset

/-- Termination measure of one `searchForDep` call: specifiers not yet on
the chain, counted twice, the current block's specifier adjusted. -/
def searchMeasure (m : Manifest) (block : Block) (chain : List String) : Nat :=
  (specsFinset m \ chain.toFinset).card +
    (specsFinset m \ insert (specOf block) chain.toFinset).card

/-! ## Generic lemmas about the `errors.length > 0 ? errors : undefined` idiom -/

theorem errOpt_eq_none_iff {α β : Type} (f : α → Option β) (l : List α) :
    (if (l.filterMap f).length > 0 then some (l.filterMap f) else none) = none ↔
      ∀ a ∈ l, f a = none := by
  constructor
  · intro h
    have hnil : l.filterMap f = [] := by
      by_contra hne
      rw [if_pos (List.length_pos.mpr hne)] at h
      exact Option.noConfusion h
    exact List.filterMap_eq_nil_iff.mp hnil
  · intro h
    rw [List.filterMap_eq_nil_iff.mpr h]
    rfl

theorem errOpt_eq_some {α β : Type} (f : α → Option β) (l : List α)
    (L : List β) :
    (if (l.filterMap f).length > 0 then some (l.filterMap f) else none) = some L →
      L = l.filterMap f ∧ L ≠ [] := by
  intro h
  split at h
  · rename_i hpos
    have hL := Option.some.inj h
    subst hL
    refine ⟨rfl, fun hnil => ?_⟩
    rw [hnil] at hpos
    simp at hpos
  · exact Option.noConfusion h

theorem filterMap_if_eq_map_filter {α β : Type} (p : α → Bool) (f : α → β)
    (l : List α) :
    (l.filterMap fun a => if p a then none else some (f a)) =
      (l.filter fun a => !(p a)).map f := by
  induction l with
  | nil => rfl
  | cons a l ih =>
    by_cases h : p a = true <;>
      simp [List.filterMap_cons, List.filter_cons, h, ih]

/-! ## Claim C3: `no-unpinned-dependency` -/

/-- C3, counterexample: the dependency string `"lodash@"` has no non-empty
version after a separator, yet `no-unpinned-dependency` reports zero
violations for it — the code only tests for the presence of an `@`
character, so the claimed pin criterion ("non-empty version after a
separator") does not match the code. -/
theorem noUnpinned_counterexample :
    hasExplicitPin "lodash@" = false ∧
    checkNoUnpinnedDependency
      ⟨"blk", "cat", [], ["lodash@"], [], [], true, false, false⟩ = none := by
  constructor
  · decide
  · decide

/-- C3 (amended): `no-unpinned-dependency` reports one violation per
dependency/devDependency string that does not contain the character `@` at
all (mere presence of `@` counts as pinned, even with an empty version);
`"lodash"` yields exactly one violation and `"lodash@4.17.21"` yields
none. -/
theorem noUnpinnedDependency_spec :
    (∀ b : Block,
      (checkNoUnpinnedDependency b = none ↔
        ∀ dep ∈ b.dependencies ++ b.devDependencies,
          jsIncludesChar dep '@' = true)) ∧
    (∀ (b : Block) (L : List String), checkNoUnpinnedDependency b = some L →
      L = ((b.dependencies ++ b.devDependencies).filter
            (fun dep => !(jsIncludesChar dep '@'))).map
          (fun dep => "Couldn\x27t find a version to use for " ++ dep) ∧
      L ≠ []) ∧
    (∀ name cat ld fl l t s,
      checkNoUnpinnedDependency ⟨name, cat, ld, ["lodash"], [], fl, l, t, s⟩ =
        some ["Couldn\x27t find a version to use for lodash"]) ∧
    (∀ name cat ld fl l t s,
      checkNoUnpinnedDependency
        ⟨name, cat, ld, ["lodash@4.17.21"], [], fl, l, t, s⟩ = none) := by
  refine ⟨?_, ?_, ?_, ?_⟩
  · intro b
    rw [show checkNoUnpinnedDependency b =
        (if ((b.dependencies ++ b.devDependencies).filterMap fun dep =>
            if jsIncludesChar dep '@' then none
            else some ("Couldn\x27t find a version to use for " ++ dep)).length > 0
          then some ((b.dependencies ++ b.devDependencies).filterMap fun dep =>
            if jsIncludesChar dep '@' then none
            else some ("Couldn\x27t find a version to use for " ++ dep))
          else none) from rfl]
    rw [errOpt_eq_none_iff]
    constructor
    · intro h dep hdep
      have := h dep hdep
      by_cases hc : jsIncludesChar dep '@' = true
      · exact hc
      · rw [if_neg hc] at this
        exact Option.noConfusion this
    · intro h dep hdep
      rw [if_pos (h dep hdep)]
  · intro b L h
    rw [show checkNoUnpinnedDependency b =
        (if ((b.dependencies ++ b.devDependencies).filterMap fun dep =>
            if jsIncludesChar dep '@' then none
            else some ("Couldn\x27t find a version to use for " ++ dep)).length > 0
          then some ((b.dependencies ++ b.devDependencies).filterMap fun dep =>
            if jsIncludesChar dep '@' then none
            else some ("Couldn\x27t find a version to use for " ++ dep))
          else none) from rfl] at h
    obtain ⟨hL, hne⟩ := errOpt_eq_some _ _ _ h
    rw [filterMap_if_eq_map_filter] at hL
    exact ⟨hL, hne⟩
  · intro name cat ld fl l t s
    rfl
  · intro name cat ld fl l t s
    rfl

/-- C3 witness: the general characterization applied to a concrete block
with one pinned and one unpinned dependency. -/
theorem noUnpinned_witness :
    (checkNoUnpinnedDependency
        ⟨"blk", "cat", [], ["lodash@4.17.21"], [], [], true, false, false⟩ = none) ∧
    ["Couldn\x27t find a version to use for lodash"] ≠ [] :=
  ⟨(noUnpinnedDependency_spec.1 _).mpr (by decide),
   (noUnpinnedDependency_spec.2.1
      ⟨"blk", "cat", [], ["lodash"], [], [], true, false, false⟩ _ rfl).2⟩

/-! ## Claim C4: `no-category-index-file-dependency` -/

/-- Exact characterization of one loop iteration of
`no-category-index-file-dependency`: a dependency is flagged when its second
path segment is literally `index` and its first segment selects (by
first-match) a category of the manifest containing a block named `index`. -/
theorem indexDepViolation_ne_none_iff (b : Block) (m : Manifest) (dep : String) :
    indexDepViolation b m dep ≠ none ↔
      ((jsSplit dep '/').get? 1 = some "index" ∧
        ∃ cat, m.categories.find?
            (fun c => c.name = (jsSplit dep '/').headD "") = some cat ∧
          (cat.blocks.find? (fun x => x.name = "index")).isSome = true) := by
  rw [show indexDepViolation b m dep =
      (if (jsSplit dep '/').get? 1 ≠ some "index" then none
        else
          match m.categories.find?
              (fun cat => cat.name = (jsSplit dep '/').headD "") with
          | none => none
          | some category =>
            match category.blocks.find? (fun x => x.name = "index") with
            | none => none
            | some _ =>
              some (specOf b ++ " depends on " ++
                (jsSplit dep '/').headD "" ++ "/index")) from rfl]
  by_cases h1 : (jsSplit dep '/').get? 1 = some "index"
  · rw [if_neg (not_not_intro h1)]
    rcases h2 : m.categories.find?
        (fun c => c.name = (jsSplit dep '/').headD "") with _ | cat
    · simp only [h2]
      exact iff_of_false (fun hne => hne rfl)
        (fun ⟨_, cat', hcat, _⟩ => Option.noConfusion hcat)
    · simp only [h2]
      rcases h3 : cat.blocks.find? (fun x => x.name = "index") with _ | bb
      · simp only [h3]
        refine iff_of_false (fun hne => hne rfl) ?_
        rintro ⟨_, cat', hcat, hsome⟩
        have hc : cat = cat' := Option.some.inj hcat
        subst hc
        rw [h3] at hsome
        exact Bool.noConfusion hsome
      · simp only [h3]
        exact iff_of_true (fun hc => Option.noConfusion hc)
          ⟨h1, cat, rfl, by rw [h3]; rfl⟩
  · rw [if_pos h1]
    exact iff_of_false (fun hne => hne rfl) (fun ⟨hidx, _⟩ => h1 hidx)

/-- C4, counterexample: block `a/x` declares the local dependency `b/index`,
which lives in category `b`, not in the block's own category `a`, and the
rule still reports a violation — the claim's "within the block's own
category" restriction is not what the code implements. -/
theorem noCategoryIndex_counterexample :
    checkNoCategoryIndexFileDependency
      ⟨"x", "a", ["b/index"], [], [], [], true, false, false⟩
      ⟨[⟨"a", [⟨"x", "a", ["b/index"], [], [], [], true, false, false⟩]⟩,
        ⟨"b", [⟨"index", "b", [], [], [], [], true, false, false⟩]⟩]⟩ =
      some ["a/x depends on b/index"] ∧
    ("a" : String) ≠ "b" := by
  constructor
  · decide
  · decide

/-- C4 (amended): the rule reports one violation per local dependency whose
name segment is literally `index` and whose category segment names a
category of the manifest (first match) that contains a block named `index` —
whether or not that category is the block's own. -/
theorem noCategoryIndexFileDependency_spec :
    (∀ (b : Block) (m : Manifest),
      (checkNoCategoryIndexFileDependency b m = none ↔
        ∀ dep ∈ b.localDependencies,
          ¬((jsSplit dep '/').get? 1 = some "index" ∧
            ∃ cat, m.categories.find?
                (fun c => c.name = (jsSplit dep '/').headD "") = some cat ∧
              (cat.blocks.find? (fun x => x.name = "index")).isSome = true))) ∧
    (∀ (b : Block) (m : Manifest) (L : List String),
      checkNoCategoryIndexFileDependency b m = some L →
        L = b.localDependencies.filterMap (indexDepViolation b m) ∧ L ≠ []) ∧
    (∀ dd dv fl l t s,
      checkNoCategoryIndexFileDependency
        ⟨"x", "a", ["a/index"], dd, dv, fl, l, t, s⟩
        ⟨[⟨"a", [⟨"x", "a", ["a/index"], dd, dv, fl, l, t, s⟩,
            ⟨"index", "a", [], [], [], [], true, false, false⟩]⟩]⟩ =
        some ["a/x depends on a/index"]) := by
  refine ⟨?_, ?_, ?_⟩
  · intro b m
    rw [show checkNoCategoryIndexFileDependency b m =
        (if (b.localDependencies.filterMap (indexDepViolation b m)).length > 0
          then some (b.localDependencies.filterMap (indexDepViolation b m))
          else none) from rfl]
    rw [errOpt_eq_none_iff]
    constructor
    · intro h dep hdep hviol
      have hne := (indexDepViolation_ne_none_iff b m dep).mpr hviol
      exact hne (h dep hdep)
    · intro h dep hdep
      by_contra hne
      exact h dep hdep ((indexDepViolation_ne_none_iff b m dep).mp hne)
  · intro b m L h
    rw [show checkNoCategoryIndexFileDependency b m =
        (if (b.localDependencies.filterMap (indexDepViolation b m)).length > 0
          then some (b.localDependencies.filterMap (indexDepViolation b m))
          else none) from rfl] at h
    exact errOpt_eq_some _ _ _ h
  · intro dd dv fl l t s
    rfl

/-- C4 witness: the general characterization applied to concrete manifests —
a block with no `index` dependency is not flagged, and the own-category
`index` dependency of the amended claim's positive case is flagged. -/
theorem noCategoryIndex_witness :
    (checkNoCategoryIndexFileDependency
        ⟨"x", "a", ["a/y"], [], [], [], true, false, false⟩
        ⟨[⟨"a", [⟨"x", "a", ["a/y"], [], [], [], true, false, false⟩,
            ⟨"y", "a", [], [], [], [], true, false, false⟩]⟩]⟩ = none) ∧
    ["a/x depends on a/index"] ≠ [] :=
  ⟨(noCategoryIndexFileDependency_spec.1 _ _).mpr (by decide),
   (noCategoryIndexFileDependency_spec.2.1
      ⟨"x", "a", ["a/index"], [], [], [], true, false, false⟩
      ⟨[⟨"a", [⟨"x", "a", ["a/index"], [], [], [], true, false, false⟩,
          ⟨"index", "a", [], [], [], [], true, false, false⟩]⟩]⟩ _ rfl).2⟩

/-! ## Claim C5: `max-local-dependencies` -/

/-- C5: with a configured numeric limit, `max-local-dependencies` reports a
violation exactly when the block's `localDependencies` length strictly
exceeds the limit, and the violation is a single message naming the block
and the limit; with limit `2` a block with 3 local dependencies yields
exactly that one violation, with limit `3` it yields none. -/
theorem maxLocalDependencies_spec :
    (∀ (b : Block) (limit : Int) (rest : List OptVal),
      (checkMaxLocalDependencies b (.num limit :: rest) = none ↔
        (b.localDependencies.length : Int) ≤ limit) ∧
      (∀ L, checkMaxLocalDependencies b (.num limit :: rest) = some L →
        L = [specOf b ++ " has too many local dependencies (" ++
          toString b.localDependencies.length ++ ") limit (" ++
          toString limit ++ ")"] ∧
        (b.localDependencies.length : Int) > limit)) ∧
    (∀ d1 d2 d3 dd dv fl l t s,
      checkMaxLocalDependencies
        ⟨"blk", "cat", [d1, d2, d3], dd, dv, fl, l, t, s⟩ [.num 2] =
        some ["cat/blk has too many local dependencies (3) limit (2)"]) ∧
    (∀ d1 d2 d3 dd dv fl l t s,
      checkMaxLocalDependencies
        ⟨"blk", "cat", [d1, d2, d3], dd, dv, fl, l, t, s⟩ [.num 3] = none) := by
  refine ⟨?_, ?_, ?_⟩
  · intro b limit rest
    rw [show checkMaxLocalDependencies b (.num limit :: rest) =
        (if (b.localDependencies.length : Int) > limit then
          some [specOf b ++ " has too many local dependencies (" ++
            toString b.localDependencies.length ++ ") limit (" ++
            toString limit ++ ")"]
        else none) from rfl]
    constructor
    · by_cases h : (b.localDependencies.length : Int) > limit
      · rw [if_pos h]
        exact iff_of_false (fun hc => Option.noConfusion hc) (Int.not_le.mpr h)
      · rw [if_neg h]
        exact iff_of_true rfl (Int.not_lt.mp h)
    · intro L hL
      by_cases h : (b.localDependencies.length : Int) > limit
      · rw [if_pos h] at hL
        exact ⟨(Option.some.inj hL).symm, h⟩
      · rw [if_neg h] at hL
        exact Option.noConfusion hL
  · intro d1 d2 d3 dd dv fl l t s
    have h : ([d1, d2, d3] : List String).length = 3 := rfl
    simp only [checkMaxLocalDependencies, h]
    rfl
  · intro d1 d2 d3 dd dv fl l t s
    have h : ([d1, d2, d3] : List String).length = 3 := rfl
    simp only [checkMaxLocalDependencies, h]
    rfl

/-- C5 witness: the general characterization applied to a concrete block with
three local dependencies and the limits 2 and 3. -/
theorem maxLocalDependencies_witness :
    (["cat/blk has too many local dependencies (3) limit (2)"] =
      [specOf (⟨"blk", "cat", ["a", "b", "c"], [], [], [], true, false, false⟩ : Block) ++
        " has too many local dependencies (" ++
        toString (Block.localDependencies
          ⟨"blk", "cat", ["a", "b", "c"], [], [], [], true, false, false⟩).length ++
        ") limit (" ++ toString (2 : Int) ++ ")"] ∧
      ((Block.localDependencies
        ⟨"blk", "cat", ["a", "b", "c"], [], [], [], true, false, false⟩).length : Int) > 2) ∧
    checkMaxLocalDependencies
      ⟨"blk", "cat", ["a", "b", "c"], [], [], [], true, false, false⟩ [.num 3] = none :=
  ⟨(maxLocalDependencies_spec.1
      ⟨"blk", "cat", ["a", "b", "c"], [], [], [], true, false, false⟩ 2 []).2 _ rfl,
   (maxLocalDependencies_spec.1
      ⟨"blk", "cat", ["a", "b", "c"], [], [], [], true, false, false⟩ 3 []).1.mpr
     (by decide)⟩

/-! ## Claim C1: `searchForDep` and `no-circular-dependency` -/

/-- C1, counterexample: on a three-block cycle the reported chain is
`cat/a -> cat/b -> cat/c -> cat/a -> cat/a` — the starting specifier is
appended once per returning recursion level, so the chain ends with *two*
occurrences of the starting specifier, not exactly one. -/
theorem noCircular_counterexample :
    checkNoCircularDependency 10
      ⟨"a", "cat", ["cat/b"], [], [], [], true, false, false⟩
      ⟨[⟨"cat", [⟨"a", "cat", ["cat/b"], [], [], [], true, false, false⟩,
        ⟨"b", "cat", ["cat/c"], [], [], [], true, false, false⟩,
        ⟨"c", "cat", ["cat/a"], [], [], [], true, false, false⟩]⟩]⟩ =
      .ok (some
        ["There is a circular dependency in cat/a: cat/a -> cat/b -> cat/c -> cat/a -> cat/a"]) ∧
    searchForDep 10 "cat/a"
      ⟨"a", "cat", ["cat/b"], [], [], [], true, false, false⟩
      [⟨"cat", [⟨"a", "cat", ["cat/b"], [], [], [], true, false, false⟩,
        ⟨"b", "cat", ["cat/c"], [], [], [], true, false, false⟩,
        ⟨"c", "cat", ["cat/a"], [], [], [], true, false, false⟩]⟩] [] =
      .found ["cat/a", "cat/b", "cat/c", "cat/a", "cat/a"] :=
  ⟨rfl, rfl⟩

/-- C1 (amended): `searchForDep` returns none as soon as the dependency it
scans is already in the received ancestor chain (regardless of the remaining
dependencies); each returning recursion level appends the target specifier
once, so a two-block cycle is reported by `no-circular-dependency` as
`cat/a -> cat/b -> cat/a` (one trailing occurrence of the start), while a
three-block cycle is reported as
`cat/a -> cat/b -> cat/c -> cat/a -> cat/a` (one trailing occurrence per
unwound level). -/
theorem searchForDep_chain_spec :
    (∀ (f : Nat) (search : String) (block : Block) (cats : List Category)
        (chain : List String) (dep : String) (rest : List String),
      block.localDependencies = dep :: rest → dep ≠ search →
      chain.contains dep = true →
      searchForDep (f + 1) search block cats chain = .notFound) ∧
    (∀ (recur : Block → List String → SearchResult) (search : String)
        (newChain chain : List String) (cats : List Category)
        (dep : String) (rest : List String) (db : Block) (p : List String),
      dep ≠ search → chain.contains dep = false →
      lookupBlock cats dep = some db → recur db newChain = .found p →
      searchLoop recur search newChain chain cats (dep :: rest) =
        .found (p ++ [search])) ∧
    (∀ (f : Nat) (dA dvA fA : List String) (lA tA sA : Bool)
        (dB dvB fB : List String) (lB tB sB : Bool),
      checkNoCircularDependency (f + 2)
        ⟨"a", "cat", ["cat/b"], dA, dvA, fA, lA, tA, sA⟩
        ⟨[⟨"cat", [⟨"a", "cat", ["cat/b"], dA, dvA, fA, lA, tA, sA⟩,
          ⟨"b", "cat", ["cat/a"], dB, dvB, fB, lB, tB, sB⟩]⟩]⟩ =
        .ok (some ["There is a circular dependency in cat/a: cat/a -> cat/b -> cat/a"])) ∧
    (∀ (f : Nat) (dA dvA fA : List String) (lA tA sA : Bool)
        (dB dvB fB : List String) (lB tB sB : Bool)
        (dC dvC fC : List String) (lC tC sC : Bool),
      checkNoCircularDependency (f + 3)
        ⟨"a", "cat", ["cat/b"], dA, dvA, fA, lA, tA, sA⟩
        ⟨[⟨"cat", [⟨"a", "cat", ["cat/b"], dA, dvA, fA, lA, tA, sA⟩,
          ⟨"b", "cat", ["cat/c"], dB, dvB, fB, lB, tB, sB⟩,
          ⟨"c", "cat", ["cat/a"], dC, dvC, fC, lC, tC, sC⟩]⟩]⟩ =
        .ok (some
          ["There is a circular dependency in cat/a: cat/a -> cat/b -> cat/c -> cat/a -> cat/a"])) := by
  refine ⟨?_, ?_, ?_, ?_⟩
  · intro f search block cats chain dep rest hdeps hne hmem
    rw [show searchForDep (f + 1) search block cats chain =
        searchLoop (fun b ch => searchForDep f search b cats ch) search
          (chain ++ [specOf block]) chain cats block.localDependencies from rfl]
    rw [hdeps]
    rw [show searchLoop (fun b ch => searchForDep f search b cats ch) search
        (chain ++ [specOf block]) chain cats (dep :: rest) =
        (if dep = search then .found (chain ++ [specOf block])
          else if chain.contains dep then .notFound
          else
            match lookupBlock cats dep with
            | none => searchLoop (fun b ch => searchForDep f search b cats ch)
                search (chain ++ [specOf block]) chain cats rest
            | some depBlock =>
              match searchForDep f search depBlock cats (chain ++ [specOf block]) with
              | .found p => .found (p ++ [search])
              | .notFound => searchLoop (fun b ch => searchForDep f search b cats ch)
                  search (chain ++ [specOf block]) chain cats rest
              | .outOfFuel => .outOfFuel) from rfl]
    rw [if_neg hne, if_pos hmem]
  · intro recur search newChain chain cats dep rest db p hne hmem hlookup hrec
    rw [show searchLoop recur search newChain chain cats (dep :: rest) =
        (if dep = search then .found newChain
          else if chain.contains dep then .notFound
          else
            match lookupBlock cats dep with
            | none => searchLoop recur search newChain chain cats rest
            | some depBlock =>
              match recur depBlock newChain with
              | .found p => .found (p ++ [search])
              | .notFound => searchLoop recur search newChain chain cats rest
              | .outOfFuel => .outOfFuel) from rfl]
    rw [if_neg hne, if_neg (by rw [hmem]; exact Bool.false_ne_true)]
    simp only [hlookup, hrec]
  · intro f dA dvA fA lA tA sA dB dvB fB lB tB sB
    rfl
  · intro f dA dvA fA lA tA sA dB dvB fB lB tB sB dC dvC fC lC tC sC
    rfl

/-- C1 witness: the three general parts applied at concrete inputs — the
short-circuit on a chain already containing the scanned dependency, the
per-level append, and the two-block-cycle rule report. -/
theorem searchForDep_chain_witness :
    searchForDep 1 "x" ⟨"blk", "cat", ["d1"], [], [], [], true, false, false⟩
      [] ["d1"] = .notFound ∧
    checkNoCircularDependency 2
      ⟨"a", "cat", ["cat/b"], [], [], [], true, false, false⟩
      ⟨[⟨"cat", [⟨"a", "cat", ["cat/b"], [], [], [], true, false, false⟩,
        ⟨"b", "cat", ["cat/a"], [], [], [], true, false, false⟩]⟩]⟩ =
      .ok (some ["There is a circular dependency in cat/a: cat/a -> cat/b -> cat/a"]) ∧
    searchLoop (fun _ _ => .found ["cat/a", "cat/b"]) "cat/a" ["cat/a"] []
      [⟨"cat", [⟨"b", "cat", ["cat/a"], [], [], [], true, false, false⟩]⟩]
      ["cat/b"] = .found ["cat/a", "cat/b", "cat/a"] :=
  ⟨searchForDep_chain_spec.1 0 "x"
      ⟨"blk", "cat", ["d1"], [], [], [], true, false, false⟩ [] ["d1"] "d1" []
      rfl (by decide) (by decide),
   searchForDep_chain_spec.2.2.1 0 [] [] [] true false false [] [] [] true false false,
   searchForDep_chain_spec.2.1 (fun _ _ => .found ["cat/a", "cat/b"]) "cat/a"
      ["cat/a"] []
      [⟨"cat", [⟨"b", "cat", ["cat/a"], [], [], [], true, false, false⟩]⟩]
      "cat/b" [] ⟨"b", "cat", ["cat/a"], [], [], [], true, false, false⟩
      ["cat/a", "cat/b"] (by decide) (by decide) (by decide) rfl⟩

/-! ## Claim C2: `no-unused-block` -/

/-- Characterization of the listed-blocks loop of `no-unused-block`: when no
listed block's search runs out of fuel, the loop yields `true` exactly when
some seed finds the specifier, `false` exactly when every seed's search
returns not-found, and it never errors. -/
theorem unusedLoop_spec (fuel : Nat) (specifier : String)
    (cats : List Category) :
    ∀ L : List Block,
      (∀ b ∈ L, searchForDep fuel specifier b cats [] ≠ .outOfFuel) →
      ((unusedLoop fuel specifier cats L = .ok true ↔
          ∃ b ∈ L, ∃ p, searchForDep fuel specifier b cats [] = .found p) ∧
        (unusedLoop fuel specifier cats L = .ok false ↔
          ∀ b ∈ L, searchForDep fuel specifier b cats [] = .notFound) ∧
        unusedLoop fuel specifier cats L ≠ .error ()) := by
  intro L
  induction L with
  | nil =>
    intro _
    refine ⟨?_, ?_, ?_⟩
    · simp [unusedLoop]
    · simp [unusedLoop]
    · simp [unusedLoop]
  | cons b rest ih =>
    intro hnd
    have hndrest : ∀ x ∈ rest, searchForDep fuel specifier x cats [] ≠ .outOfFuel :=
      fun x hx => hnd x (List.mem_cons_of_mem b hx)
    obtain ⟨ih1, ih2, ih3⟩ := ih hndrest
    rcases hb : searchForDep fuel specifier b cats [] with p | _ | _
    · refine ⟨?_, ?_, ?_⟩
      · simp only [unusedLoop, hb]
        exact iff_of_true trivial ⟨b, List.mem_cons_self b rest, p, hb⟩
      · simp only [unusedLoop, hb]
        refine iff_of_false (fun hc => ?_) (fun hall => ?_)
        · exact Bool.noConfusion (Except.ok.inj hc)
        · exact SearchResult.noConfusion ((hall b (List.mem_cons_self b rest)).symm.trans hb)
      · simp only [unusedLoop, hb]
        exact fun hc => Except.noConfusion hc
    · refine ⟨?_, ?_, ?_⟩
      · simp only [unusedLoop, hb]
        rw [ih1]
        constructor
        · rintro ⟨x, hx, p, hp⟩
          exact ⟨x, List.mem_cons_of_mem b hx, p, hp⟩
        · rintro ⟨x, hx, p, hp⟩
          rcases List.mem_cons.mp hx with hxb | hxr
          · subst hxb
            exact absurd (hb.symm.trans hp) (fun hc => SearchResult.noConfusion hc)
          · exact ⟨x, hxr, p, hp⟩
      · simp only [unusedLoop, hb]
        rw [ih2]
        constructor
        · intro hall x hx
          rcases List.mem_cons.mp hx with hxb | hxr
          · subst hxb; exact hb
          · exact hall x hxr
        · intro hall x hx
          exact hall x (List.mem_cons_of_mem b hx)
      · simp only [unusedLoop, hb]
        exact ih3
    · exact absurd hb (hnd b (List.mem_cons_self b rest))

/-- C2, counterexample: the rule's criterion is not transitive-closure
reachability.  In the manifest `cat: l (listed, deps [cat/a]),
a (not listed, deps [cat/l, cat/t]), t (not listed)`, block `cat/t` *is* in
the listed block `cat/l`'s transitive local-dependency closure
(`l → a → t`), yet `no-unused-block` flags it: the search from `l`, while
scanning `a`'s dependencies, meets the ancestor back-edge `cat/l` and
returns `undefined` for the whole call, skipping `a`'s remaining dependency
`cat/t`. -/
theorem noUnusedBlock_counterexample :
    closureReaches 5
      ⟨[⟨"cat", [⟨"l", "cat", ["cat/a"], [], [], [], true, false, false⟩,
        ⟨"a", "cat", ["cat/l", "cat/t"], [], [], [], false, false, false⟩,
        ⟨"t", "cat", [], [], [], [], false, false, false⟩]⟩]⟩
      ⟨"l", "cat", ["cat/a"], [], [], [], true, false, false⟩ "cat/t" = true ∧
    Block.list ⟨"l", "cat", ["cat/a"], [], [], [], true, false, false⟩ = true ∧
    Block.list ⟨"t", "cat", [], [], [], [], false, false, false⟩ = false ∧
    checkNoUnusedBlock 10
      ⟨"t", "cat", [], [], [], [], false, false, false⟩
      ⟨[⟨"cat", [⟨"l", "cat", ["cat/a"], [], [], [], true, false, false⟩,
        ⟨"a", "cat", ["cat/l", "cat/t"], [], [], [], false, false, false⟩,
        ⟨"t", "cat", [], [], [], [], false, false, false⟩]⟩]⟩ =
      .ok (some ["cat/t is unused and will be removed"]) := by
  exact ⟨by decide, rfl, rfl, rfl⟩

/-- C2 (amended): `no-unused-block` never flags a block marked `list`;
whenever no seeded search diverges, a block not marked `list` is flagged
exactly when every `list`-marked block's depth-first search (`searchForDep`,
which returns none for a whole call as soon as it scans a dependency already
on the ancestor chain, skipping that block's remaining dependencies) fails
to reach it — so a block may be flagged even though it lies in a listed
block's transitive local-dependency closure; reachability is still seeded
only from the `list`-marked blocks of the manifest, never from all
blocks. -/
theorem noUnusedBlock_spec :
    ∀ (fuel : Nat) (block : Block) (m : Manifest),
      (block.list = true → checkNoUnusedBlock fuel block m = .ok none) ∧
      (block.list = false →
        (∀ b ∈ (allBlocks m).filter Block.list,
          searchForDep fuel (specOf block) b m.categories [] ≠ .outOfFuel) →
        ((checkNoUnusedBlock fuel block m = .ok none ↔
            ∃ b ∈ (allBlocks m).filter Block.list, ∃ p,
              searchForDep fuel (specOf block) b m.categories [] = .found p) ∧
          (checkNoUnusedBlock fuel block m =
              .ok (some [specOf block ++ " is unused and will be removed"]) ↔
            ∀ b ∈ (allBlocks m).filter Block.list,
              searchForDep fuel (specOf block) b m.categories [] = .notFound))) := by
  intro fuel block m
  constructor
  · intro hl
    simp only [checkNoUnusedBlock, hl, if_true]
  · intro hl hnd
    obtain ⟨h1, h2, h3⟩ :=
      unusedLoop_spec fuel (specOf block) m.categories
        ((allBlocks m).filter Block.list) hnd
    simp only [checkNoUnusedBlock, hl, if_false, Bool.false_eq_true]
    rcases hu : unusedLoop fuel (specOf block) m.categories
        ((allBlocks m).filter Block.list) with e | bval
    · cases e
      exact absurd hu h3
    · cases bval
      · simp only [hu]
        constructor
        · refine iff_of_false (fun hc => ?_) (fun hfound => ?_)
          · exact Option.noConfusion (Except.ok.inj hc)
          · exact Bool.noConfusion (Except.ok.inj ((h1.mpr hfound).symm.trans hu))
        · exact iff_of_true trivial (h2.mp hu)
      · simp only [hu]
        constructor
        · exact iff_of_true trivial (h1.mp hu)
        · refine iff_of_false (fun hc => ?_) (fun hall => ?_)
          · exact Option.noConfusion (Except.ok.inj hc)
          · exact Bool.noConfusion (Except.ok.inj ((h2.mpr hall).symm.trans hu))

/-- C2 witness: in a manifest whose only listed block `cat/l` reaches
nothing, the non-listed block `cat/t` is flagged even though the non-listed
block `cat/u` depends on it (reachability is seeded only from listed
blocks), and the listed block itself is never flagged. -/
theorem noUnusedBlock_witness :
    checkNoUnusedBlock 5
      ⟨"l", "cat", [], [], [], [], true, false, false⟩
      ⟨[⟨"cat", [⟨"t", "cat", [], [], [], [], false, false, false⟩,
        ⟨"u", "cat", ["cat/t"], [], [], [], false, false, false⟩,
        ⟨"l", "cat", [], [], [], [], true, false, false⟩]⟩]⟩ = .ok none ∧
    checkNoUnusedBlock 5
      ⟨"t", "cat", [], [], [], [], false, false, false⟩
      ⟨[⟨"cat", [⟨"t", "cat", [], [], [], [], false, false, false⟩,
        ⟨"u", "cat", ["cat/t"], [], [], [], false, false, false⟩,
        ⟨"l", "cat", [], [], [], [], true, false, false⟩]⟩]⟩ =
      .ok (some ["cat/t is unused and will be removed"]) :=
  ⟨(noUnusedBlock_spec 5 ⟨"l", "cat", [], [], [], [], true, false, false⟩
      ⟨[⟨"cat", [⟨"t", "cat", [], [], [], [], false, false, false⟩,
        ⟨"u", "cat", ["cat/t"], [], [], [], false, false, false⟩,
        ⟨"l", "cat", [], [], [], [], true, false, false⟩]⟩]⟩).1 rfl,
   (((noUnusedBlock_spec 5 ⟨"t", "cat", [], [], [], [], false, false, false⟩
      ⟨[⟨"cat", [⟨"t", "cat", [], [], [], [], false, false, false⟩,
        ⟨"u", "cat", ["cat/t"], [], [], [], false, false, false⟩,
        ⟨"l", "cat", [], [], [], [], true, false, false⟩]⟩]⟩).2 rfl
      (by decide)).2).mpr (by decide)⟩

/-! ## Claims C6 and C9: `runRules` severity handling -/

/-- An `off` severity short-circuits `applyRule` before the rule's check
function is consulted: the result is empty for every rule body. -/
theorem applyRule_off (name : String) (rule : Rule) (block : Block)
    (m : Manifest) (config : RegistryConfig) (cfg : RuleConfig)
    (h : (confDestructure (cfg name)).1 = some RuleLevel.off) :
    applyRule name rule block m config cfg = .ok ([], []) := by
  simp only [applyRule]
  rw [if_pos h]

/-- Dropping an `off`-configured rule from the table does not change
`runRulesBlock`. -/
theorem runRulesBlock_skip (name : String) (m : Manifest)
    (config : RegistryConfig) (cfg : RuleConfig)
    (h : (confDestructure (cfg name)).1 = some RuleLevel.off) :
    ∀ (pre post : List (String × Rule)) (rule : Rule) (block : Block),
      runRulesBlock (pre ++ (name, rule) :: post) block m config cfg =
        runRulesBlock (pre ++ post) block m config cfg := by
  intro pre
  induction pre with
  | nil =>
    intro post rule block
    simp only [List.nil_append, runRulesBlock]
    rw [applyRule_off name rule block m config cfg h]
    rcases hr : runRulesBlock post block m config cfg with e | ⟨w2, e2⟩ <;>
      simp [hr, Bind.bind, Except.bind, Pure.pure, Except.pure]
  | cons hd pre ih =>
    intro post rule block
    rcases hd with ⟨hdName, hdRule⟩
    simp only [List.cons_append, runRulesBlock, List.append_eq]
    rw [ih post rule block]

/-- Dropping an `off`-configured rule from the table does not change
`runRulesBlocks`. -/
theorem runRulesBlocks_skip (name : String) (m : Manifest)
    (config : RegistryConfig) (cfg : RuleConfig)
    (h : (confDestructure (cfg name)).1 = some RuleLevel.off)
    (pre post : List (String × Rule)) (rule : Rule) :
    ∀ blocks : List Block,
      runRulesBlocks (pre ++ (name, rule) :: post) blocks m config cfg =
        runRulesBlocks (pre ++ post) blocks m config cfg := by
  intro blocks
  induction blocks with
  | nil => rfl
  | cons b rest ih =>
    simp only [runRulesBlocks]
    rw [runRulesBlock_skip name m config cfg h pre post rule b, ih]

/-- Dropping an `off`-configured rule from the table does not change
`runRulesCats`. -/
theorem runRulesCats_skip (name : String) (m : Manifest)
    (config : RegistryConfig) (cfg : RuleConfig)
    (h : (confDestructure (cfg name)).1 = some RuleLevel.off)
    (pre post : List (String × Rule)) (rule : Rule) :
    ∀ cats : List Category,
      runRulesCats (pre ++ (name, rule) :: post) cats m config cfg =
        runRulesCats (pre ++ post) cats m config cfg := by
  intro cats
  induction cats with
  | nil => rfl
  | cons c rest ih =>
    simp only [runRulesCats]
    rw [runRulesBlocks_skip name m config cfg h pre post rule c.blocks, ih]

/-- C6: a rule whose configured severity is `off` contributes no violations
at all — its per-block application is empty whatever its check would say,
and the whole `runRulesOn` result equals the result of a run with the rule
deleted from the table, so the skip happens before the check runs. -/
theorem runRules_off_spec :
    ∀ (name : String) (m : Manifest) (config : RegistryConfig)
      (cfg : RuleConfig),
      (confDestructure (cfg name)).1 = some RuleLevel.off →
      (∀ (rule : Rule) (block : Block),
        applyRule name rule block m config cfg = .ok ([], [])) ∧
      (∀ (pre post : List (String × Rule)) (rule : Rule),
        runRulesOn (pre ++ (name, rule) :: post) m config cfg =
          runRulesOn (pre ++ post) m config cfg) := by
  intro name m config cfg h
  constructor
  · intro rule block
    exact applyRule_off name rule block m config cfg h
  · intro pre post rule
    unfold runRulesOn
    exact runRulesCats_skip name m config cfg h pre post rule m.categories

/-- C6 witness: with `no-unpinned-dependency` configured `off`, its
application to a block violating the underlying condition is empty, and the
full run equals the run over the table without it. -/
theorem runRules_off_witness :
    applyRule "no-unpinned-dependency"
      ⟨"Require all dependencies to have a pinned version.",
        fun block _ => .ok (checkNoUnpinnedDependency block)⟩
      ⟨"blk", "cat", [], ["lodash"], [], [], true, false, false⟩
      ⟨[⟨"cat", [⟨"blk", "cat", [], ["lodash"], [], [], true, false, false⟩]⟩]⟩
      RegistryConfig.mkConfig
      (fun n => if n = "no-unpinned-dependency" then some (.lvl .off)
        else DEFAULT_CONFIG n) = .ok ([], []) ∧
    runRulesOn (rulesList 3)
      ⟨[⟨"cat", [⟨"blk", "cat", [], ["lodash"], [], [], true, false, false⟩]⟩]⟩
      RegistryConfig.mkConfig
      (fun n => if n = "no-unpinned-dependency" then some (.lvl .off)
        else DEFAULT_CONFIG n) =
    runRulesOn ((rulesList 3).drop 1)
      ⟨[⟨"cat", [⟨"blk", "cat", [], ["lodash"], [], [], true, false, false⟩]⟩]⟩
      RegistryConfig.mkConfig
      (fun n => if n = "no-unpinned-dependency" then some (.lvl .off)
        else DEFAULT_CONFIG n) :=
  ⟨(runRules_off_spec "no-unpinned-dependency"
      ⟨[⟨"cat", [⟨"blk", "cat", [], ["lodash"], [], [], true, false, false⟩]⟩]⟩
      RegistryConfig.mkConfig
      (fun n => if n = "no-unpinned-dependency" then some (.lvl .off)
        else DEFAULT_CONFIG n) (by decide)).1 _ _,
   (runRules_off_spec "no-unpinned-dependency"
      ⟨[⟨"cat", [⟨"blk", "cat", [], ["lodash"], [], [], true, false, false⟩]⟩]⟩
      RegistryConfig.mkConfig
      (fun n => if n = "no-unpinned-dependency" then some (.lvl .off)
        else DEFAULT_CONFIG n) (by decide)).2 [] ((rulesList 3).drop 1) _⟩

/-- A missing configuration entry leaves the severity `undefined`, which is
neither `off` nor `error`: `applyRule` still runs the check and routes its
violations to the warnings component. -/
theorem applyRule_missing_conf (name : String) (rule : Rule) (block : Block)
    (m : Manifest) (config : RegistryConfig) (cfg : RuleConfig)
    (h : cfg name = none) :
    applyRule name rule block m config cfg =
      (rule.check block ⟨m, [], config⟩).map
        (fun res => ((res.getD []).map (fmtWarn name), ([] : List String))) := by
  simp only [applyRule, h, confDestructure]
  rw [if_neg (fun hc => Option.noConfusion hc)]
  rcases hc : rule.check block ⟨m, [], config⟩ with e | res
  · simp [hc, Except.map]
  · rcases res with _ | errs
    · simp [hc, Except.map]
    · simp only [hc, Except.map]
      rw [if_neg (fun hc2 => Option.noConfusion hc2)]
      rfl

/-- Error component of `runRulesBlock` over a single-rule table whose rule
has no configuration entry: always empty on success. -/
theorem runRulesBlock_missing_err (name : String) (rule : Rule) (m : Manifest)
    (config : RegistryConfig) (cfg : RuleConfig) (h : cfg name = none) :
    ∀ (block : Block) (w e : List String),
      runRulesBlock [(name, rule)] block m config cfg = .ok (w, e) → e = [] := by
  intro block w e hrun
  rw [show runRulesBlock [(name, rule)] block m config cfg =
      (do
        let x ← applyRule name rule block m config cfg
        let y ← runRulesBlock [] block m config cfg
        return (x.1 ++ y.1, x.2 ++ y.2)) from rfl] at hrun
  rw [applyRule_missing_conf name rule block m config cfg h] at hrun
  rcases hc : rule.check block ⟨m, [], config⟩ with e2 | res
  · rw [hc] at hrun
    simp [Except.map, Bind.bind, Except.bind] at hrun
  · rw [hc] at hrun
    simp only [Except.map, Bind.bind, Except.bind, runRulesBlock, Pure.pure,
      Except.pure] at hrun
    have := (Prod.mk.injEq _ _ _ _).mp (Except.ok.inj hrun)
    exact this.2.symm.trans (List.append_nil _)

/-- Error component of `runRulesBlocks` over a single unconfigured rule:
always empty on success. -/
theorem runRulesBlocks_missing_err (name : String) (rule : Rule) (m : Manifest)
    (config : RegistryConfig) (cfg : RuleConfig) (h : cfg name = none) :
    ∀ (blocks : List Block) (w e : List String),
      runRulesBlocks [(name, rule)] blocks m config cfg = .ok (w, e) →
        e = [] := by
  intro blocks
  induction blocks with
  | nil =>
    intro w e hrun
    exact ((Prod.mk.injEq _ _ _ _).mp (Except.ok.inj hrun)).2.symm
  | cons b rest ih =>
    intro w e hrun
    rw [show runRulesBlocks [(name, rule)] (b :: rest) m config cfg =
        (do
          let x ← runRulesBlock [(name, rule)] b m config cfg
          let y ← runRulesBlocks [(name, rule)] rest m config cfg
          return (x.1 ++ y.1, x.2 ++ y.2)) from rfl] at hrun
    rcases h1 : runRulesBlock [(name, rule)] b m config cfg with e1 | ⟨w1, er1⟩
    · rw [h1] at hrun
      simp [Bind.bind, Except.bind] at hrun
    · rw [h1] at hrun
      rcases h2 : runRulesBlocks [(name, rule)] rest m config cfg with e2 | ⟨w2, er2⟩
      · rw [h2] at hrun
        simp [Bind.bind, Except.bind] at hrun
      · rw [h2] at hrun
        simp only [Bind.bind, Except.bind, Pure.pure, Except.pure] at hrun
        have hpair := (Prod.mk.injEq _ _ _ _).mp (Except.ok.inj hrun)
        have he1 : er1 = [] := runRulesBlock_missing_err name rule m config cfg h b w1 er1 h1
        have he2 : er2 = [] := ih w2 er2 h2
        rw [← hpair.2, he1, he2]
        rfl

/-- Error component of `runRulesCats` over a single unconfigured rule:
always empty on success. -/
theorem runRulesCats_missing_err (name : String) (rule : Rule) (m : Manifest)
    (config : RegistryConfig) (cfg : RuleConfig) (h : cfg name = none) :
    ∀ (cats : List Category) (w e : List String),
      runRulesCats [(name, rule)] cats m config cfg = .ok (w, e) → e = [] := by
  intro cats
  induction cats with
  | nil =>
    intro w e hrun
    exact ((Prod.mk.injEq _ _ _ _).mp (Except.ok.inj hrun)).2.symm
  | cons c rest ih =>
    intro w e hrun
    rw [show runRulesCats [(name, rule)] (c :: rest) m config cfg =
        (do
          let x ← runRulesBlocks [(name, rule)] c.blocks m config cfg
          let y ← runRulesCats [(name, rule)] rest m config cfg
          return (x.1 ++ y.1, x.2 ++ y.2)) from rfl] at hrun
    rcases h1 : runRulesBlocks [(name, rule)] c.blocks m config cfg with e1 | ⟨w1, er1⟩
    · rw [h1] at hrun
      simp [Bind.bind, Except.bind] at hrun
    · rw [h1] at hrun
      rcases h2 : runRulesCats [(name, rule)] rest m config cfg with e2 | ⟨w2, er2⟩
      · rw [h2] at hrun
        simp [Bind.bind, Except.bind] at hrun
      · rw [h2] at hrun
        simp only [Bind.bind, Except.bind, Pure.pure, Except.pure] at hrun
        have hpair := (Prod.mk.injEq _ _ _ _).mp (Except.ok.inj hrun)
        have he1 : er1 = [] :=
          runRulesBlocks_missing_err name rule m config cfg h c.blocks w1 er1 h1
        have he2 : er2 = [] := ih w2 er2 h2
        rw [← hpair.2, he1, he2]
        rfl

/-- C9: a rule missing from the rule configuration is still executed — the
result of its application is exactly the check's outcome (including any
divergence marker), with violations formatted into the warnings component
and an always-empty errors component; over a whole run, such a rule
contributes to warnings only. -/
theorem missingRuleConfig_spec :
    ∀ (name : String) (rule : Rule) (block : Block) (m : Manifest)
      (config : RegistryConfig) (cfg : RuleConfig),
      cfg name = none →
      (applyRule name rule block m config cfg =
        (rule.check block ⟨m, [], config⟩).map
          (fun res => ((res.getD []).map (fmtWarn name), ([] : List String)))) ∧
      (∀ w e, runRulesOn [(name, rule)] m config cfg = .ok (w, e) → e = []) := by
  intro name rule block m config cfg h
  constructor
  · exact applyRule_missing_conf name rule block m config cfg h
  · intro w e hrun
    exact runRulesCats_missing_err name rule m config cfg h m.categories w e hrun

/-- C9 witness: the unconfigured `no-unpinned-dependency` rule still runs on
a block with an unpinned dependency and lands its violation in the warnings
component. -/
theorem missingRuleConfig_witness :
    applyRule "no-unpinned-dependency"
      ⟨"Require all dependencies to have a pinned version.",
        fun block _ => .ok (checkNoUnpinnedDependency block)⟩
      ⟨"blk", "cat", [], ["lodash"], [], [], true, false, false⟩
      ⟨[⟨"cat", [⟨"blk", "cat", [], ["lodash"], [], [], true, false, false⟩]⟩]⟩
      RegistryConfig.mkConfig (fun _ => none) =
      .ok ([fmtWarn "no-unpinned-dependency"
        "Couldn\x27t find a version to use for lodash"], []) := by
  rw [(missingRuleConfig_spec "no-unpinned-dependency"
      ⟨"Require all dependencies to have a pinned version.",
        fun block _ => .ok (checkNoUnpinnedDependency block)⟩
      ⟨"blk", "cat", [], ["lodash"], [], [], true, false, false⟩
      ⟨[⟨"cat", [⟨"blk", "cat", [], ["lodash"], [], [], true, false, false⟩]⟩]⟩
      RegistryConfig.mkConfig (fun _ => none) rfl).1]
  rfl

/-! ## Claims C7 and C8: the interactive update pipeline -/

theorem commonPre_len_le_left :
    ∀ o n : List (List Char), (commonPre o n).length ≤ o.length := by
  intro o
  induction o with
  | nil => intro n; cases n <;> simp [commonPre]
  | cons a as ih =>
    intro n
    cases n with
    | nil => simp [commonPre]
    | cons b bs =>
      by_cases h : a = b
      · simp only [commonPre, if_pos h, List.length_cons]
        exact Nat.succ_le_succ (ih bs)
      · simp [commonPre, if_neg h]

theorem commonPre_len_le_right :
    ∀ o n : List (List Char), (commonPre o n).length ≤ n.length := by
  intro o
  induction o with
  | nil => intro n; cases n <;> simp [commonPre]
  | cons a as ih =>
    intro n
    cases n with
    | nil => simp [commonPre]
    | cons b bs =>
      by_cases h : a = b
      · simp only [commonPre, if_pos h, List.length_cons]
        exact Nat.succ_le_succ (ih bs)
      · simp [commonPre, if_neg h]

theorem commonPre_exists_left :
    ∀ o n : List (List Char), ∃ t, o = commonPre o n ++ t := by
  intro o
  induction o with
  | nil => intro n; cases n <;> exact ⟨[], rfl⟩
  | cons a as ih =>
    intro n
    cases n with
    | nil => exact ⟨a :: as, rfl⟩
    | cons b bs =>
      by_cases h : a = b
      · obtain ⟨t, ht⟩ := ih bs
        refine ⟨t, ?_⟩
        simp only [commonPre, if_pos h, List.cons_append]
        rw [← ht]
      · exact ⟨a :: as, by simp [commonPre, if_neg h]⟩

theorem commonPre_exists_right :
    ∀ o n : List (List Char), ∃ t, n = commonPre o n ++ t := by
  intro o
  induction o with
  | nil => intro n; cases n <;> exact ⟨_, rfl⟩
  | cons a as ih =>
    intro n
    cases n with
    | nil => exact ⟨[], rfl⟩
    | cons b bs =>
      by_cases h : a = b
      · obtain ⟨t, ht⟩ := ih bs
        refine ⟨t, ?_⟩
        simp only [commonPre, if_pos h, List.cons_append]
        rw [h, ← ht]
      · exact ⟨b :: bs, by simp [commonPre, if_neg h]⟩

/-- Maximality of the common prefix: the remainders cannot start with the
same line. -/
theorem commonPre_max :
    ∀ (o n : List (List Char)) (x : List Char) (ox nx : List (List Char)),
      o.drop (commonPre o n).length = x :: ox →
      n.drop (commonPre o n).length = x :: nx → False := by
  intro o
  induction o with
  | nil =>
    intro n x ox nx ho _
    cases n <;> simp [commonPre] at ho
  | cons a as ih =>
    intro n x ox nx ho hn
    cases n with
    | nil => simp [commonPre] at hn
    | cons b bs =>
      by_cases h : a = b
      · rw [show commonPre (a :: as) (b :: bs) = a :: commonPre as bs from by
          simp [commonPre, if_pos h]] at ho hn
        simp only [List.length_cons, List.drop_succ_cons] at ho hn
        exact ih bs x ox nx ho hn
      · rw [show commonPre (a :: as) (b :: bs) = [] from by
          simp [commonPre, if_neg h]] at ho hn
        simp only [List.length_nil, List.drop_zero] at ho hn
        have ha : a = x := (List.cons.injEq _ _ _ _).mp ho |>.1
        have hb : b = x := (List.cons.injEq _ _ _ _).mp hn |>.1
        exact h (ha.trans hb.symm)

theorem commonPre_nil_right (o : List (List Char)) : commonPre o [] = [] := by
  cases o <;> rfl

theorem realChanges_chunkList (p a b s : List (List Char)) :
    realChanges (chunkList p a b s) =
      (if a.isEmpty then 0 else 1) + (if b.isEmpty then 0 else 1) := by
  unfold chunkList realChanges
  split_ifs <;> simp [List.filter_append]

theorem length_chunkList (p a b s : List (List Char)) :
    (chunkList p a b s).length =
      ((if p.isEmpty then 0 else 1) + (if a.isEmpty then 0 else 1)) +
        ((if b.isEmpty then 0 else 1) + (if s.isEmpty then 0 else 1)) := by
  unfold chunkList
  split_ifs <;> simp

/-- If the removed middle of the trimmed diff is empty, the old remainder is
exactly the common suffix. -/
theorem mid_nil_left (o2 n2 : List (List Char))
    (h : o2.take (o2.length - (commonSuf o2 n2).length) = []) :
    o2 = commonSuf o2 n2 := by
  have hlen : (commonSuf o2 n2).length ≤ o2.length := by
    unfold commonSuf
    rw [List.length_reverse]
    calc (commonPre o2.reverse n2.reverse).length
        ≤ o2.reverse.length := commonPre_len_le_left _ _
      _ = o2.length := List.length_reverse o2
  rcases List.take_eq_nil_iff.mp h with h0 | hnil
  · have hge : o2.length ≤ (commonSuf o2 n2).length := Nat.le_of_sub_eq_zero h0
    have heq : o2.length = (commonSuf o2 n2).length := Nat.le_antisymm hge hlen |>.symm ▸ rfl
    obtain ⟨t, ht⟩ := commonPre_exists_left o2.reverse n2.reverse
    have hsrev : commonPre o2.reverse n2.reverse = (commonSuf o2 n2).reverse := by
      unfold commonSuf
      rw [List.reverse_reverse]
    rw [hsrev] at ht
    have htlen : t.length = 0 := by
      have := congrArg List.length ht
      rw [List.length_append, List.length_reverse, List.length_reverse] at this
      omega
    rw [List.length_eq_zero.mp htlen, List.append_nil] at ht
    have := congrArg List.reverse ht
    rw [List.reverse_reverse, List.reverse_reverse] at this
    exact this
  · subst hnil
    have : (commonSuf [] n2).length = 0 := Nat.le_zero.mp hlen
    exact (List.length_eq_zero.mp this).symm

/-- If the added middle of the trimmed diff is empty, the new remainder is
exactly the common suffix. -/
theorem mid_nil_right (o2 n2 : List (List Char))
    (h : n2.take (n2.length - (commonSuf o2 n2).length) = []) :
    n2 = commonSuf o2 n2 := by
  have hlen : (commonSuf o2 n2).length ≤ n2.length := by
    unfold commonSuf
    rw [List.length_reverse]
    calc (commonPre o2.reverse n2.reverse).length
        ≤ n2.reverse.length := commonPre_len_le_right _ _
      _ = n2.length := List.length_reverse n2
  rcases List.take_eq_nil_iff.mp h with h0 | hnil
  · have hge : n2.length ≤ (commonSuf o2 n2).length := Nat.le_of_sub_eq_zero h0
    obtain ⟨t, ht⟩ := commonPre_exists_right o2.reverse n2.reverse
    have hsrev : commonPre o2.reverse n2.reverse = (commonSuf o2 n2).reverse := by
      unfold commonSuf
      rw [List.reverse_reverse]
    rw [hsrev] at ht
    have htlen : t.length = 0 := by
      have := congrArg List.length ht
      rw [List.length_append, List.length_reverse, List.length_reverse] at this
      omega
    rw [List.length_eq_zero.mp htlen, List.append_nil] at ht
    have := congrArg List.reverse ht
    rw [List.reverse_reverse, List.reverse_reverse] at this
    exact this
  · subst hnil
    have : (commonSuf o2 []).length = 0 := Nat.le_zero.mp hlen
    exact (List.length_eq_zero.mp this).symm

/-- `diffChunks` written over the trimmed remainders. -/
theorem diffChunks_decompose (o n : List (List Char)) :
    ∀ t1 t2, o.drop (commonPre o n).length = t1 →
      n.drop (commonPre o n).length = t2 →
      diffChunks o n = chunkList (commonPre o n)
        (t1.take (t1.length - (commonSuf t1 t2).length))
        (t2.take (t2.length - (commonSuf t1 t2).length))
        (commonSuf t1 t2) := by
  intro t1 t2 h1 h2
  simp only [diffChunks]
  rw [h1, h2]

/-- A diff with zero real changes only happens on equal line lists, and then
it consists of at most one (unchanged) chunk. -/
theorem diffChunks_zero_real (o n : List (List Char))
    (h : realChanges (diffChunks o n) = 0) :
    o = n ∧ (diffChunks o n).length ≤ 1 := by
  obtain ⟨t1, ht1⟩ := commonPre_exists_left o n
  obtain ⟨t2, ht2⟩ := commonPre_exists_right o n
  have hdo : o.drop (commonPre o n).length = t1 := by
    have := congrArg (List.drop (commonPre o n).length) ht1
    rwa [List.drop_left] at this
  have hdn : n.drop (commonPre o n).length = t2 := by
    have := congrArg (List.drop (commonPre o n).length) ht2
    rwa [List.drop_left] at this
  have hdiff := diffChunks_decompose o n t1 t2 hdo hdn
  rw [hdiff] at h ⊢
  rw [realChanges_chunkList] at h
  have hmo : t1.take (t1.length - (commonSuf t1 t2).length) = [] := by
    by_cases h1 : (t1.take (t1.length - (commonSuf t1 t2).length)).isEmpty
    · exact List.isEmpty_iff.mp h1
    · rw [if_neg h1] at h
      omega
  have hmn : t2.take (t2.length - (commonSuf t1 t2).length) = [] := by
    by_cases h1 : (t2.take (t2.length - (commonSuf t1 t2).length)).isEmpty
    · exact List.isEmpty_iff.mp h1
    · rw [if_neg h1] at h
      omega
  have ht1s : t1 = commonSuf t1 t2 := mid_nil_left t1 t2 hmo
  have ht2s : t2 = commonSuf t1 t2 := mid_nil_right t1 t2 hmn
  by_cases hte : t1 = []
  · have hse : commonSuf t1 t2 = [] := ht1s.symm.trans hte
    have ht2e : t2 = [] := ht2s.trans hse
    constructor
    · conv_lhs => rw [ht1]
      conv_rhs => rw [ht2]
      rw [hte, ht2e]
    · rw [hmo, hmn, hse, length_chunkList]
      by_cases hpe : (commonPre o n).isEmpty <;> simp [hpe]
  · obtain ⟨x, xs, hx⟩ := List.exists_cons_of_ne_nil hte
    have ht2x : t2 = x :: xs := (ht2s.trans ht1s.symm).trans hx
    exact (commonPre_max o n x xs xs (hdo.trans hx) (hdn.trans ht2x)).elim

/-- A diff with at least one real change between two non-empty line lists has
more than one chunk. -/
theorem diffChunks_many (o n : List (List Char)) (ho : o ≠ []) (hn : n ≠ [])
    (h : realChanges (diffChunks o n) ≠ 0) :
    (diffChunks o n).length > 1 := by
  obtain ⟨t1, ht1⟩ := commonPre_exists_left o n
  obtain ⟨t2, ht2⟩ := commonPre_exists_right o n
  have hdo : o.drop (commonPre o n).length = t1 := by
    have := congrArg (List.drop (commonPre o n).length) ht1
    rwa [List.drop_left] at this
  have hdn : n.drop (commonPre o n).length = t2 := by
    have := congrArg (List.drop (commonPre o n).length) ht2
    rwa [List.drop_left] at this
  have hdiff := diffChunks_decompose o n t1 t2 hdo hdn
  rw [hdiff] at h ⊢
  rw [realChanges_chunkList] at h
  rw [length_chunkList]
  by_cases h1 : (t1.take (t1.length - (commonSuf t1 t2).length)).isEmpty <;>
    by_cases h2 : (t2.take (t2.length - (commonSuf t1 t2).length)).isEmpty
  · rw [if_pos h1, if_pos h2] at h
    omega
  · have ht1s : t1 = commonSuf t1 t2 := mid_nil_left t1 t2 (List.isEmpty_iff.mp h1)
    by_cases hpe : (commonPre o n).isEmpty
    · by_cases hse : (commonSuf t1 t2).isEmpty
      · exfalso
        apply ho
        rw [ht1, List.isEmpty_iff.mp hpe, ht1s, List.isEmpty_iff.mp hse]
        rfl
      · rw [if_pos h1, if_neg h2, if_pos hpe, if_neg hse]
        omega
    · rw [if_pos h1, if_neg h2, if_neg hpe]
      split_ifs <;> omega
  · have ht2s : t2 = commonSuf t1 t2 := mid_nil_right t1 t2 (List.isEmpty_iff.mp h2)
    by_cases hpe : (commonPre o n).isEmpty
    · by_cases hse : (commonSuf t1 t2).isEmpty
      · exfalso
        apply hn
        rw [ht2, List.isEmpty_iff.mp hpe, ht2s, List.isEmpty_iff.mp hse]
        rfl
      · rw [if_neg h1, if_pos h2, if_pos hpe, if_neg hse]
        omega
    · rw [if_neg h1, if_pos h2, if_neg hpe]
      split_ifs <;> omega
  · rw [if_neg h1, if_neg h2]
    split_ifs <;> omega

/-- A diff against an empty new side has at most one chunk (the whole old
content as one removed run). -/
theorem diffChunks_nil_right_len (o : List (List Char)) :
    (diffChunks o []).length ≤ 1 := by
  have hsuf : commonSuf o [] = [] := by
    unfold commonSuf
    rw [List.reverse_nil, commonPre_nil_right]
    rfl
  have hdec := diffChunks_decompose o [] o []
    (by rw [commonPre_nil_right]; rfl) (by rw [commonPre_nil_right]; rfl)
  rw [hdec, hsuf, commonPre_nil_right, length_chunkList]
  simp only [List.length_nil, Nat.sub_zero, List.take_length, List.take_nil,
    List.isEmpty_nil]
  by_cases hoe : o.isEmpty <;> simp [hoe]

/-- Non-empty strings tokenize to non-empty line lists. -/
theorem chLinesGo_eq_nil :
    ∀ (cs : List Char) (cur : List Char),
      chLinesGo cur cs = [] ↔ (cur = [] ∧ cs = []) := by
  intro cs
  induction cs with
  | nil =>
    intro cur
    by_cases h : cur = [] <;> simp [chLinesGo, h]
  | cons c cs ih =>
    intro cur
    by_cases h : c = '\n'
    · simp [chLinesGo, h]
    · simp only [chLinesGo, if_neg h]
      rw [ih (c :: cur)]
      simp

/-- `splitLines` of a non-empty string is non-empty. -/
theorem splitLines_ne_nil (s : String) (h : s ≠ "") : splitLines s ≠ [] := by
  intro hc
  unfold splitLines at hc
  have := (chLinesGo_eq_nil s.data []).mp hc
  exact h (by
    cases s with
    | mk data =>
      rw [show data = [] from this.2])

/-- `processFile` with an exhausted decision script: the file is skipped
(`some none`) exactly when the review loop does not reach a prompt, and the
run is reported as prompting (`none`) otherwise. -/
theorem processFile_empty_script (lf : Option String) (remote : String) :
    processFile false false lf remote [] =
      (if (diffLines (lf.getD "") remote).length > 1 ∨ lf.getD "" = "" then
        none else some none) := by
  have hloop : updateLoop false false (lf.getD "") remote [] =
      (if (diffLines (lf.getD "") remote).length > 1 ∨ lf.getD "" = "" then
        none else some (false, remote)) := rfl
  have hproc : processFile false false lf remote [] =
      (match updateLoop false false (lf.getD "") remote [] with
        | none => none
        | some (accepted, finalRemote) =>
          if accepted then some (some finalRemote) else some none) := rfl
  rw [hproc, hloop]
  by_cases hC : (diffLines (lf.getD "") remote).length > 1 ∨ lf.getD "" = ""
  · rw [if_pos hC, if_pos hC]
  · rw [if_neg hC, if_neg hC]
    rfl

/-- C7, counterexample: with existing non-empty local content `"a\n"` and an
empty remote candidate, the diff has one real (removed) change, yet the file
is skipped without prompting (`some none`) — the claim predicts a prompt
(`none` on an exhausted script). -/
theorem updateSkip_counterexample :
    realChanges (diffLines "a\n" "") = 1 ∧
    processFile false false (some "a\n") "" [] = some none := by
  exact ⟨by decide, by decide⟩

/-- C7 (amended): in the interactive pipeline (neither `--yes` nor `--no`),
a file whose diff has zero real changes against existing non-empty local
content is skipped without prompting or writing; a prompt is reached when the
local file is absent or empty, or when the diff has at least one real change
and the candidate content is non-empty — but an empty candidate against
non-empty local content collapses to a single removed chunk and is also
skipped without prompting. -/
theorem updatePrompt_spec :
    (∀ (localContent remote : String), localContent ≠ "" →
      realChanges (diffLines localContent remote) = 0 →
      processFile false false (some localContent) remote [] = some none) ∧
    (∀ (localFile : Option String) (remote : String),
      localFile = none ∨ localFile = some "" →
      processFile false false localFile remote [] = none) ∧
    (∀ (localContent remote : String), localContent ≠ "" → remote ≠ "" →
      realChanges (diffLines localContent remote) ≠ 0 →
      processFile false false (some localContent) remote [] = none) ∧
    (∀ localContent : String, localContent ≠ "" →
      processFile false false (some localContent) "" [] = some none) := by
  refine ⟨?_, ?_, ?_, ?_⟩
  · intro lc remote hne hzero
    have hzero' : realChanges (diffChunks (splitLines lc) (splitLines remote)) = 0 :=
      hzero
    have hlen : (diffLines lc remote).length ≤ 1 :=
      (diffChunks_zero_real _ _ hzero').2
    rw [processFile_empty_script (some lc) remote]
    simp only [Option.getD_some]
    rw [if_neg (fun hC => hC.elim (fun hgt => absurd hgt (by omega)) hne)]
  · intro lf remote hlf
    rcases hlf with rfl | rfl
    · rw [processFile_empty_script none remote]
      simp only [Option.getD_none]
      rw [if_pos (Or.inr trivial)]
    · rw [processFile_empty_script (some "") remote]
      simp only [Option.getD_some]
      rw [if_pos (Or.inr trivial)]
  · intro lc remote hne hrne hreal
    have hreal' : realChanges (diffChunks (splitLines lc) (splitLines remote)) ≠ 0 :=
      hreal
    have hgt : (diffLines lc remote).length > 1 :=
      diffChunks_many (splitLines lc) (splitLines remote)
        (splitLines_ne_nil lc hne) (splitLines_ne_nil remote hrne) hreal'
    rw [processFile_empty_script (some lc) remote]
    simp only [Option.getD_some]
    rw [if_pos (Or.inl hgt)]
  · intro lc hne
    have hlen : (diffLines lc "").length ≤ 1 :=
      diffChunks_nil_right_len (splitLines lc)
    rw [processFile_empty_script (some lc) ""]
    simp only [Option.getD_some]
    rw [if_neg (fun hC => hC.elim (fun hgt => absurd hgt (by omega)) hne)]

/-- C7 witness: the four prompt/skip cases at concrete contents. -/
theorem updatePrompt_witness :
    processFile false false (some "a\nb\n") "a\nb\n" [] = some none ∧
    processFile false false none "x\n" [] = none ∧
    processFile false false (some "a\nb\n") "a\nc\n" [] = none ∧
    processFile false false (some "zz\n") "" [] = some none :=
  ⟨updatePrompt_spec.1 "a\nb\n" "a\nb\n" (by decide) (by decide),
   updatePrompt_spec.2.1 none "x\n" (Or.inl rfl),
   updatePrompt_spec.2.2.1 "a\nb\n" "a\nc\n" (by decide) (by decide) (by decide),
   updatePrompt_spec.2.2.2 "zz\n" (by decide)⟩

/-- C8: a file that reaches the interactive decision is overwritten with the
candidate content on Accept, and left untouched (no write) on Reject. -/
theorem updateDecision_spec :
    ∀ (localFile : Option String) (remote : String) (ds : List Decision),
      ((diffLines (localFile.getD "") remote).length > 1 ∨
        localFile.getD "" = "") →
      processFile false false localFile remote (.accept :: ds) =
        some (some remote) ∧
      processFile false false localFile remote (.reject :: ds) = some none ∧
      diskAfter localFile
        (processFile false false localFile remote (.accept :: ds)) =
        some remote ∧
      diskAfter localFile
        (processFile false false localFile remote (.reject :: ds)) =
        localFile := by
  intro lf remote ds h
  have hA : processFile false false lf remote (.accept :: ds) =
      some (some remote) := by
    have hloop : updateLoop false false (lf.getD "") remote (.accept :: ds) =
        (if (diffLines (lf.getD "") remote).length > 1 ∨ lf.getD "" = "" then
          some (true, remote) else some (false, remote)) := rfl
    have hproc : processFile false false lf remote (.accept :: ds) =
        (match updateLoop false false (lf.getD "") remote (.accept :: ds) with
          | none => none
          | some (accepted, finalRemote) =>
            if accepted then some (some finalRemote) else some none) := rfl
    rw [hproc, hloop, if_pos h]
    rfl
  have hR : processFile false false lf remote (.reject :: ds) = some none := by
    have hloop : updateLoop false false (lf.getD "") remote (.reject :: ds) =
        (if (diffLines (lf.getD "") remote).length > 1 ∨ lf.getD "" = "" then
          some (false, remote) else some (false, remote)) := rfl
    have hproc : processFile false false lf remote (.reject :: ds) =
        (match updateLoop false false (lf.getD "") remote (.reject :: ds) with
          | none => none
          | some (accepted, finalRemote) =>
            if accepted then some (some finalRemote) else some none) := rfl
    rw [hproc, hloop, if_pos h]
    rfl
  refine ⟨hA, hR, ?_, ?_⟩
  · rw [hA]
    rfl
  · rw [hR]
    rfl

/-- C8 witness: with local content `"a\nb\n"` and candidate `"a\nc\n"`,
Accept writes `"a\nc\n"` and Reject leaves the disk at `"a\nb\n"`. -/
theorem updateDecision_witness :
    processFile false false (some "a\nb\n") "a\nc\n" [.accept] =
      some (some "a\nc\n") ∧
    processFile false false (some "a\nb\n") "a\nc\n" [.reject] = some none ∧
    diskAfter (some "a\nb\n")
      (processFile false false (some "a\nb\n") "a\nc\n" [.accept]) =
      some "a\nc\n" ∧
    diskAfter (some "a\nb\n")
      (processFile false false (some "a\nb\n") "a\nc\n" [.reject]) =
      some "a\nb\n" :=
  updateDecision_spec (some "a\nb\n") "a\nc\n" [] (Or.inl (by decide))

/-! ## Claim C10: termination of `searchForDep` -/

theorem lookupBlock_mem (m : Manifest) (dep : String) (db : Block)
    (h : lookupBlock m.categories dep = some db) : db ∈ allBlocks m := by
  simp only [lookupBlock] at h
  rcases hf : m.categories.find?
      (fun cat => cat.name = (jsSplit dep '/').headD "") with _ | cat
  · rw [hf] at h
    exact Option.noConfusion h
  · rw [hf] at h
    rcases hg : (jsSplit dep '/').get? 1 with _ | bn
    · rw [hg] at h
      exact Option.noConfusion h
    · rw [hg] at h
      have hcat : cat ∈ m.categories := List.mem_of_find?_eq_some hf
      have hdb : db ∈ cat.blocks := List.mem_of_find?_eq_some h
      exact List.mem_flatten.mpr
        ⟨cat.blocks, List.mem_map_of_mem Category.blocks hcat, hdb⟩

theorem wfManifest_spec (m : Manifest) (hwf : wfManifest m = true) (b : Block)
    (hb : b ∈ allBlocks m) (dep : String) (hdep : dep ∈ b.localDependencies)
    (db : Block) (hlk : lookupBlock m.categories dep = some db) :
    specOf db = dep := by
  unfold wfManifest at hwf
  rw [List.all_eq_true] at hwf
  have h1 := hwf b hb
  rw [List.all_eq_true] at h1
  have h2 := h1 dep hdep
  rw [hlk] at h2
  exact eq_of_beq h2

theorem toFinset_append_singleton (chain : List String) (s : String) :
    (chain ++ [s]).toFinset = insert s chain.toFinset := by
  rw [List.toFinset_append, Finset.union_comm]
  simp [Finset.insert_eq]

/-- Strict decrease of the search measure along one recursive descent. -/
theorem searchMeasure_decreases (m : Manifest) (block db : Block)
    (chain : List String) (dep : String) (_hb : block ∈ allBlocks m)
    (hdb : db ∈ allBlocks m) (hdep : specOf db = dep)
    (hnm : ¬ dep ∈ chain) :
    searchMeasure m db (chain ++ [specOf block]) <
      searchMeasure m block chain := by
  unfold searchMeasure
  rw [toFinset_append_singleton, hdep]
  have hdS : dep ∈ specsFinset m := by
    unfold specsFinset
    rw [List.mem_toFinset]
    rw [← hdep]
    exact List.mem_map_of_mem specOf hdb
  have hdC : dep ∉ chain.toFinset := fun hc => hnm (List.mem_toFinset.mp hc)
  have hkey : (specsFinset m \
      insert dep (insert (specOf block) chain.toFinset)).card <
      (specsFinset m \ chain.toFinset).card := by
    apply Finset.card_lt_card
    constructor
    · intro x hx
      rw [Finset.mem_sdiff] at hx ⊢
      exact ⟨hx.1, fun hc =>
        hx.2 (Finset.mem_insert_of_mem (Finset.mem_insert_of_mem hc))⟩
    · intro hsub
      have hd : dep ∈ specsFinset m \ chain.toFinset :=
        Finset.mem_sdiff.mpr ⟨hdS, hdC⟩
      have := hsub hd
      rw [Finset.mem_sdiff] at this
      exact this.2 (Finset.mem_insert_self _ _)
  omega

/-- On a specifier-consistent manifest, `searchForDep` never exhausts a fuel
budget exceeding its measure: the recursion depth is bounded. -/
theorem searchForDep_bounded (m : Manifest) (hwf : wfManifest m = true)
    (search : String) :
    ∀ (fuel : Nat) (block : Block) (chain : List String),
      block ∈ allBlocks m → searchMeasure m block chain < fuel →
      searchForDep fuel search block m.categories chain ≠ .outOfFuel := by
  intro fuel
  induction fuel with
  | zero =>
    intro block chain _ hlt
    exact absurd hlt (Nat.not_lt_zero _)
  | succ f ih =>
    intro block chain hb hlt
    rw [show searchForDep (f + 1) search block m.categories chain =
        searchLoop (fun b ch => searchForDep f search b m.categories ch) search
          (chain ++ [specOf block]) chain m.categories
          block.localDependencies from rfl]
    have hloop : ∀ deps, (∀ d ∈ deps, d ∈ block.localDependencies) →
        searchLoop (fun b ch => searchForDep f search b m.categories ch) search
          (chain ++ [specOf block]) chain m.categories deps ≠ .outOfFuel := by
      intro deps
      induction deps with
      | nil =>
        intro _
        exact fun hc => SearchResult.noConfusion hc
      | cons dep rest ihdeps =>
        intro hsub
        simp only [searchLoop]
        by_cases h1 : dep = search
        · rw [if_pos h1]
          exact fun hc => SearchResult.noConfusion hc
        · rw [if_neg h1]
          by_cases h2 : chain.contains dep = true
          · rw [if_pos h2]
            exact fun hc => SearchResult.noConfusion hc
          · rw [if_neg h2]
            rcases hlk : lookupBlock m.categories dep with _ | db
            · simp only [hlk]
              exact ihdeps (fun d hd => hsub d (List.mem_cons_of_mem _ hd))
            · simp only [hlk]
              have hdbmem : db ∈ allBlocks m := lookupBlock_mem m dep db hlk
              have hspec : specOf db = dep :=
                wfManifest_spec m hwf block hb dep
                  (hsub dep (List.mem_cons_self _ _)) db hlk
              have hnm : ¬ dep ∈ chain := by
                intro hmem
                exact h2 (by simp [hmem])
              have hdec := searchMeasure_decreases m block db chain dep hb
                hdbmem hspec hnm
              have hrec := ih db (chain ++ [specOf block]) hdbmem (by omega)
              rcases hres : searchForDep f search db m.categories
                  (chain ++ [specOf block]) with p | _ | _
              · exact fun hc => SearchResult.noConfusion hc
              · exact ihdeps (fun d hd => hsub d (List.mem_cons_of_mem _ hd))
              · exact absurd hres hrec
    exact hloop block.localDependencies (fun d hd => hd)

/-- The dependency string `a/b/c` declared by block `a/b` resolves (by the
split-and-lookup) to block `a/b` itself, whose specifier `a/b` never equals
the scanned string `a/b/c`: the search recurses forever, at every fuel
budget. -/
theorem searchForDep_bad_diverges :
    ∀ (fuel : Nat) (chain : List String), ¬ "a/b/c" ∈ chain →
      searchForDep fuel "a/b"
        ⟨"b", "a", ["a/b/c"], [], [], [], true, false, false⟩
        [⟨"a", [⟨"b", "a", ["a/b/c"], [], [], [], true, false, false⟩]⟩]
        chain = .outOfFuel := by
  intro fuel
  induction fuel with
  | zero => intro chain _; rfl
  | succ f ih =>
    intro chain hnotin
    rw [show searchForDep (f + 1) "a/b"
        ⟨"b", "a", ["a/b/c"], [], [], [], true, false, false⟩
        [⟨"a", [⟨"b", "a", ["a/b/c"], [], [], [], true, false, false⟩]⟩]
        chain =
        searchLoop (fun b ch => searchForDep f "a/b" b
          [⟨"a", [⟨"b", "a", ["a/b/c"], [], [], [], true, false, false⟩]⟩] ch)
          "a/b" (chain ++ ["a/b"]) chain
          [⟨"a", [⟨"b", "a", ["a/b/c"], [], [], [], true, false, false⟩]⟩]
          ["a/b/c"] from rfl]
    simp only [searchLoop]
    rw [if_neg (by decide : ¬("a/b/c" : String) = "a/b")]
    rw [if_neg (by simp [hnotin])]
    rw [show lookupBlock
        [⟨"a", [⟨"b", "a", ["a/b/c"], [], [], [], true, false, false⟩]⟩]
        "a/b/c" =
        some ⟨"b", "a", ["a/b/c"], [], [], [], true, false, false⟩ from rfl]
    have hrec := ih (chain ++ ["a/b"]) (by
      intro hmem
      rcases List.mem_append.mp hmem with hm | hm
      · exact hnotin hm
      · simp at hm)
    simp only [hrec]

/-- C10, counterexample: on the one-block manifest whose block `a/b` declares
the local dependency string `a/b/c`, the search exhausts a fuel budget of 50
even though the manifest has exactly one distinct block specifier — the
recursion depth is not bounded by the number of distinct specifiers, and the
JS original overflows its stack on this manifest. -/
theorem searchForDep_termination_counterexample :
    searchForDep 50 "a/b"
      ⟨"b", "a", ["a/b/c"], [], [], [], true, false, false⟩
      [⟨"a", [⟨"b", "a", ["a/b/c"], [], [], [], true, false, false⟩]⟩] [] =
      .outOfFuel ∧
    (allBlocks
      ⟨[⟨"a", [⟨"b", "a", ["a/b/c"], [], [], [], true, false, false⟩]⟩]⟩).map
      specOf = ["a/b"] :=
  ⟨by decide, by decide⟩

/-- C10 (amended): on every specifier-consistent manifest (each resolving
local-dependency string equals the specifier of the block it resolves to)
`searchForDep` terminates from any manifest block, with recursion depth at
most `2·(number of distinct block specifiers) + 1`; without that consistency
the recursion is genuinely unbounded — block `a/b` with dependency string
`a/b/c` recurses forever at every fuel budget. -/
theorem searchForDep_termination_spec :
    (∀ fuel : Nat,
      searchForDep fuel "a/b"
        ⟨"b", "a", ["a/b/c"], [], [], [], true, false, false⟩
        [⟨"a", [⟨"b", "a", ["a/b/c"], [], [], [], true, false, false⟩]⟩] [] =
        .outOfFuel) ∧
    (∀ (m : Manifest) (block : Block) (search : String) (fuel : Nat),
      wfManifest m = true → block ∈ allBlocks m →
      2 * (specsFinset m).card + 1 ≤ fuel →
      searchForDep fuel search block m.categories [] ≠ .outOfFuel) := by
  constructor
  · intro fuel
    exact searchForDep_bad_diverges fuel [] (by simp)
  · intro m block search fuel hwf hb hfuel
    apply searchForDep_bounded m hwf search fuel block [] hb
    have hs : specOf block ∈ specsFinset m := by
      unfold specsFinset
      rw [List.mem_toFinset]
      exact List.mem_map_of_mem specOf hb
    have hcard1 : (specsFinset m \ ([] : List String).toFinset).card ≤
        (specsFinset m).card := by
      apply Finset.card_le_card
      intro x hx
      exact (Finset.mem_sdiff.mp hx).1
    have hcard2 : (specsFinset m \
        insert (specOf block) ([] : List String).toFinset).card <
        (specsFinset m).card := by
      apply Finset.card_lt_card
      constructor
      · intro x hx
        exact (Finset.mem_sdiff.mp hx).1
      · intro hsub
        have := hsub hs
        rw [Finset.mem_sdiff] at this
        exact this.2 (Finset.mem_insert_self _ _)
    unfold searchMeasure
    omega

/-- C10 witness: the divergent manifest at fuel 7, and termination on the
consistent two-block-cycle manifest within the bound. -/
theorem searchForDep_termination_witness :
    searchForDep 7 "a/b"
      ⟨"b", "a", ["a/b/c"], [], [], [], true, false, false⟩
      [⟨"a", [⟨"b", "a", ["a/b/c"], [], [], [], true, false, false⟩]⟩] [] =
      .outOfFuel ∧
    searchForDep 5 "x"
      ⟨"a", "cat", ["cat/b"], [], [], [], true, false, false⟩
      [⟨"cat", [⟨"a", "cat", ["cat/b"], [], [], [], true, false, false⟩,
        ⟨"b", "cat", ["cat/a"], [], [], [], true, false, false⟩]⟩] [] ≠
      .outOfFuel :=
  ⟨searchForDep_termination_spec.1 7,
   searchForDep_termination_spec.2
     ⟨[⟨"cat", [⟨"a", "cat", ["cat/b"], [], [], [], true, false, false⟩,
       ⟨"b", "cat", ["cat/a"], [], [], [], true, false, false⟩]⟩]⟩
     ⟨"a", "cat", ["cat/b"], [], [], [], true, false, false⟩ "x" 5
     (by decide) (by decide) (by decide)⟩
